import Mathlib

set_option maxHeartbeats 2000000
set_option maxRecDepth 8000

/-!
Verification of the `json_ast.py` AST-to-JSON converter (AroAceLang).

The Python program walks an `ast` tree with a `NodeVisitor` subclass
(`DictWalker`), converting every node into a JSON-serializable dict.
We embed the program shallowly:

* `Node` mirrors the Python `ast` node grammar as far as the converter
  touches it.  Each constructor carries exactly the attributes the real
  CPython node class has: position attributes (`lineno`, `col_offset`,
  `end_lineno`, `end_col_offset`) are present on statement/expression
  nodes and absent on `Module`, expression-context markers, operators,
  `arguments`, `comprehension` and `withitem`; a `type_comment`
  attribute exists only on `FunctionDef`, `Assign`, `For`, `With` and
  `arg`.  Unknown node kinds (anything without a dedicated
  `visit_<Kind>` method) are represented by `other`, recording the
  class name, optional position attributes, optional `type_comment`
  attribute and the list of child nodes.
* `DictAst` is the JSON value universe; dicts are insertion-ordered
  association lists as in Python, and `dictUnion` is Python's
  right-biased `d1 | d2`.
* The process-global `missing` set and the diagnostic `print` calls
  become an explicit `State` record threaded through the walk; a raised
  `AttributeError` becomes `Except.error`.
* `str(node)` is the default object repr
  `<ast.<Kind> object at 0x<addr>>`, embedding the node's memory
  address.  The runtime picks those addresses afresh on every run, so
  the interpreter takes an address assignment `A : Node → Nat` (the
  run's `id`) and every strings-producing result is relative to it.
-/

/-- The four position attributes every located `ast` node carries. -/
structure Pos where
  lineno : Int
  colOffset : Int
  endLineno : Int
  endColOffset : Int

/-- JSON-serializable values, the codomain of the conversion
(`DictAst` in the Python source). Dicts are insertion-ordered
association lists, as Python dicts are. -/
inductive DictAst where
  | str (s : String)
  | int (n : Int)
  | bool (b : Bool)
  | null
  | dict (fields : List (String × DictAst))
  | list (elems : List DictAst)

/-- Payload of an `ast.Constant` node (`node.value`). -/
inductive ConstVal where
  | int (n : Int)
  | str (s : String)
  | bool (b : Bool)
  | none_

/-- The input tree. One constructor per node kind the converter has a
`visit_<Kind>` method for, plus `other` for every kind it does not. -/
inductive Node where
  | Module (body : List Node)
  | Expr (value : Node) (pos : Pos)
  | Call (func : Node) (args : List Node) (keywords : List Node) (pos : Pos)
  | Name (id : String) (ctx : Node) (pos : Pos)
  | Load
  | Constant (value : ConstVal) (kind : Option String) (pos : Pos)
  | keyword (arg : Option String) (value : Node) (pos : Pos)
  | Import (names : List Node) (pos : Pos)
  | alias (name : String) (asname : Option String) (pos : Pos)
  | ImportFrom (module : Option String) (names : List Node) (level : Int) (pos : Pos)
  | ClassDef (name : String) (bases : List Node) (keywords : List Node)
      (body : List Node) (decoratorList : List Node) (pos : Pos)
  | Attribute (value : Node) (attr : String) (ctx : Node) (pos : Pos)
  | Store
  | BitOr
  | arguments (posonlyargs : List Node) (args : List Node) (vararg : Option Node)
      (kwonlyargs : List Node) (kwDefaults : List (Option Node))
      (kwarg : Option Node) (defaults : List Node)
  | Not
  | comprehension (target : Node) (iter : Node) (ifs : List Node) (isAsync : Int)
  | IsNot
  | Eq
  | withitem (contextExpr : Node) (optionalVars : Option Node)
  | Add
  | Subscript (value : Node) (slice : Node) (ctx : Node) (pos : Pos)
  | BinOp (left : Node) (op : Node) (right : Node) (pos : Pos)
  | With (items : List Node) (body : List Node) (pos : Pos) (tc : Option String)
  | Assign (targets : List Node) (value : Node) (pos : Pos) (tc : Option String)
  | Dict (keys : List (Option Node)) (values : List Node) (pos : Pos)
  | arg (argName : String) ( annotation : Option Node) (pos : Pos) (tc : Option String)
  | Return (value : Option Node) (pos : Pos)
  | FunctionDef (name : String) (args : Node) (body : List Node)
      (decoratorList : List Node) (returns : Option Node) (pos : Pos) (tc : Option String)
  | ListComp (elt : Node) (generators : List Node) (pos : Pos)
  | UnaryOp (op : Node) (operand : Node) (pos : Pos)
  | Compare (left : Node) (ops : List Node) (comparators : List Node) (pos : Pos)
  | IfExp (test : Node) (body : Node) (orelse : Node) (pos : Pos)
  | JoinedStr (values : List Node) (pos : Pos)
  | Tuple (elts : List Node) (ctx : Node) (pos : Pos)
  | FormattedValue (value : Node) (conversion : Int) (formatSpec : Option Node) (pos : Pos)
  | For (target : Node) (iter : Node) (body : List Node) (orelse : List Node)
      (pos : Pos) (tc : Option String)
  | If (test : Node) (body : List Node) (orelse : List Node) (pos : Pos)
  | other (kind : String) (pos : Option Pos) (tc : Option (Option String))
      (children : List Node)

/-- The value of `node.__class__.__name__` for dispatch and for the
missing-kind set. -/
def className : Node → String
  | .Module _ => "Module"
  | .Expr _ _ => "Expr"
  | .Call _ _ _ _ => "Call"
  | .Name _ _ _ => "Name"
  | .Load => "Load"
  | .Constant _ _ _ => "Constant"
  | .keyword _ _ _ => "keyword"
  | .Import _ _ => "Import"
  | .alias _ _ _ => "alias"
  | .ImportFrom _ _ _ _ => "ImportFrom"
  | .ClassDef _ _ _ _ _ _ => "ClassDef"
  | .Attribute _ _ _ _ => "Attribute"
  | .Store => "Store"
  | .BitOr => "BitOr"
  | .arguments _ _ _ _ _ _ _ => "arguments"
  | .Not => "Not"
  | .comprehension _ _ _ _ => "comprehension"
  | .IsNot => "IsNot"
  | .Eq => "Eq"
  | .withitem _ _ => "withitem"
  | .Add => "Add"
  | .Subscript _ _ _ _ => "Subscript"
  | .BinOp _ _ _ _ => "BinOp"
  | .With _ _ _ _ => "With"
  | .Assign _ _ _ _ => "Assign"
  | .Dict _ _ _ => "Dict"
  | .arg _ _ _ _ => "arg"
  | .Return _ _ => "Return"
  | .FunctionDef _ _ _ _ _ _ _ => "FunctionDef"
  | .ListComp _ _ _ => "ListComp"
  | .UnaryOp _ _ _ => "UnaryOp"
  | .Compare _ _ _ _ => "Compare"
  | .IfExp _ _ _ _ => "IfExp"
  | .JoinedStr _ _ => "JoinedStr"
  | .Tuple _ _ _ => "Tuple"
  | .FormattedValue _ _ _ _ => "FormattedValue"
  | .For _ _ _ _ _ _ => "For"
  | .If _ _ _ _ => "If"
  | .other kind _ _ _ => kind

/-- The position attributes of a node, when the node class has them
(`None` models a class without `lineno`/`col_offset`/... attributes,
on which `node.lineno` raises `AttributeError`). -/
def posOf : Node → Option Pos
  | .Module _ => none
  | .Expr _ p => some p
  | .Call _ _ _ p => some p
  | .Name _ _ p => some p
  | .Load => none
  | .Constant _ _ p => some p
  | .keyword _ _ p => some p
  | .Import _ p => some p
  | .alias _ _ p => some p
  | .ImportFrom _ _ _ p => some p
  | .ClassDef _ _ _ _ _ p => some p
  | .Attribute _ _ _ p => some p
  | .Store => none
  | .BitOr => none
  | .arguments _ _ _ _ _ _ _ => none
  | .Not => none
  | .comprehension _ _ _ _ => none
  | .IsNot => none
  | .Eq => none
  | .withitem _ _ => none
  | .Add => none
  | .Subscript _ _ _ p => some p
  | .BinOp _ _ _ p => some p
  | .With _ _ p _ => some p
  | .Assign _ _ p _ => some p
  | .Dict _ _ p => some p
  | .arg _ _ p _ => some p
  | .Return _ p => some p
  | .FunctionDef _ _ _ _ _ p _ => some p
  | .ListComp _ _ p => some p
  | .UnaryOp _ _ p => some p
  | .Compare _ _ _ p => some p
  | .IfExp _ _ _ p => some p
  | .JoinedStr _ p => some p
  | .Tuple _ _ p => some p
  | .FormattedValue _ _ _ p => some p
  | .For _ _ _ _ p _ => some p
  | .If _ _ _ p => some p
  | .other _ p _ _ => p

/-- The value `generic_visit` computes for `type_comment`:
`node.type_comment` when the class has the attribute (`hasattr`),
`None` otherwise.  Only `FunctionDef`, `Assign`, `For`, `With` and
`arg` have the attribute among the known kinds. -/
def typeCommentOf : Node → Option String
  | .With _ _ _ tc => tc
  | .Assign _ _ _ tc => tc
  | .arg _ _ _ tc => tc
  | .FunctionDef _ _ _ _ _ _ tc => tc
  | .For _ _ _ _ _ tc => tc
  | .other _ _ (some tc) _ => tc
  | _ => none

/-- Lower-case hexadecimal rendering of a machine address, as it
appears in the default object repr (`object at 0x...`). -/
def hexStr (n : Nat) : String := String.mk (Nat.toDigits 16 n)

/-- Python's `str(node)` for an `ast` node, used in the diagnostic line
and the placeholder `type` string.  `ast.AST` has no custom `__repr__`
on the interpreters this program targets, so `str(node)` is the default
`<ast.<Kind> object at 0x<addr>>`, embedding the node's memory address
(`id(node)`) — a value chosen afresh by the runtime on every run.
`addr` is that address, supplied by the run's address assignment. -/
def nodeDump (addr : Nat) (n : Node) : String :=
  "<ast." ++ className n ++ " object at 0x" ++ hexStr addr ++ ">"

/-- JSON rendering of an optional string (absent values serialize as
null, as in the Python source). -/
def optStr : Option String → DictAst
  | some s => .str s
  | none => .null

/-- JSON rendering of a constant payload. -/
def constToDict : ConstVal → DictAst
  | .int n => .int n
  | .str s => .str s
  | .bool b => .bool b
  | .none_ => .null

/-- A record: a Python dict with string keys, insertion-ordered. -/
abbrev Rec := List (String × DictAst)

/-- Assignment `d[k] = v` on an insertion-ordered dict: overwrite in
place when the key is present, append otherwise. -/
def setKey (d : Rec) (k : String) (v : DictAst) : Rec :=
  if d.any (fun p => p.1 = k) then
    d.map (fun p => if p.1 = k then (k, v) else p)
  else
    d ++ [(k, v)]

/-- Python's dict union `d1 | d2`: start from `d1`, then write every
entry of `d2` in order.  Values of `d2` win on key collision. -/
def dictUnion (d1 d2 : Rec) : Rec :=
  d2.foldl (fun acc p => setKey acc p.1 p.2) d1

/-- Dict key lookup. -/
def getKey (d : Rec) (k : String) : Option DictAst :=
  match d with
  | [] => none
  | (k', v) :: rest => if k' = k then some v else getKey rest k

/-- The keys of a record, in insertion order. -/
def keysOf (d : Rec) : List String := d.map (fun p => p.1)

/-- The process state: the module-level `missing` set (kept as its
insertion-ordered list of distinct elements) and the diagnostic lines
printed so far. -/
structure State where
  missing : List String
  diag : List String

/-- `missing.add(k)`: a set insertion, a no-op when the tag is already
present. -/
def addMissing (m : List String) (k : String) : List String :=
  if k ∈ m then m else m ++ [k]

/-- Folding a whole list of tags into the set. -/
def addAll (m : List String) (l : List String) : List String :=
  l.foldl addMissing m

/-- The state at interpreter start-up: empty `missing` set, no
diagnostics printed. -/
def initState : State := ⟨[], []⟩

/-- The positional-metadata record `generic_visit` builds:
`{"lineno": ..., "col_offset": ..., "end_lineno": ...,
"end_col_offset": ..., "type_comment": ...}`. -/
def posRec (p : Pos) (tc : Option String) : Rec :=
  [("lineno", .int p.lineno),
   ("col_offset", .int p.colOffset),
   ("end_lineno", .int p.endLineno),
   ("end_col_offset", .int p.endColOffset),
   ("type_comment", optStr tc)]

mutual

/-- `DictWalker.visit` (inherited `NodeVisitor.visit` dispatch): route
the node to its `visit_<Kind>` method when one exists, to
`generic_visit` otherwise.  Each arm below transcribes the
corresponding `visit_<Kind>` method of `DictWalker`. -/
def visit (A : Node → Nat) (st : State) (n : Node) : Except String (State × DictAst) :=
  match n with
  | .Module body => do
      let (s1, bodyR) ← visitList A st body
      pure (s1, .dict [("type", .str "Module"), ("body", .list bodyR)])
  | .Expr value pos => do
      let (s1, v) ← visit A st value
      let (s2, info) ← generic_visit A s1 (.Expr value pos) true
      pure (s2, .dict (dictUnion [("type", .str "Expr"), ("value", v)] info))
  | .Call func args keywords pos => do
      let (s1, f) ← visit A st func
      let (s2, argsR) ← visitList A s1 args
      let (s3, kwsR) ← visitList A s2 keywords
      let (s4, info) ← generic_visit A s3 (.Call func args keywords pos) true
      pure (s4, .dict (dictUnion
        [("type", .str "Call"), ("func", f), ("args", .list argsR),
         ("keywords", .list kwsR)] info))
  | .Name id ctx pos => do
      let (s1, c) ← visit A st ctx
      let (s2, info) ← generic_visit A s1 (.Name id ctx pos) true
      pure (s2, .dict (dictUnion
        [("type", .str "Name"), ("id", .str id), ("ctx", c)] info))
  | .Load => pure (st, .dict [("type", .str "Load")])
  | .Constant value kind pos => do
      let (s1, info) ← generic_visit A st (.Constant value kind pos) true
      pure (s1, .dict (dictUnion
        [("type", .str "Constant"), ("value", constToDict value),
         ("kind", optStr kind)] info))
  | .keyword a value _ => do
      let (s1, v) ← visit A st value
      pure (s1, .dict [("type", .str "keyword"), ("arg", optStr a), ("value", v)])
  | .Import names pos => do
      let (s1, namesR) ← visitList A st names
      let (s2, info) ← generic_visit A s1 (.Import names pos) true
      pure (s2, .dict (dictUnion
        [("type", .str "Import"), ("names", .list namesR)] info))
  | .alias name asname pos => do
      let (s1, info) ← generic_visit A st (.alias name asname pos) true
      pure (s1, .dict (dictUnion
        [("type", .str "alias"), ("name", .str name), ("asname", optStr asname)] info))
  | .ImportFrom module names level pos => do
      let (s1, namesR) ← visitList A st names
      let (s2, info) ← generic_visit A s1 (.ImportFrom module names level pos) true
      pure (s2, .dict (dictUnion
        [("type", .str "ImportFrom"), ("module", optStr module),
         ("names", .list namesR), ("level", .int level)] info))
  | .ClassDef name bases keywords body decoratorList pos => do
      let (s1, basesR) ← visitList A st bases
      let (s2, kwsR) ← visitList A s1 keywords
      let (s3, bodyR) ← visitList A s2 body
      let (s4, decR) ← visitList A s3 decoratorList
      let (s5, info) ← generic_visit A s4 (.ClassDef name bases keywords body decoratorList pos) true
      pure (s5, .dict (dictUnion
        [("type", .str "ClassDef"), ("name", .str name), ("bases", .list basesR),
         ("keywords", .list kwsR), ("body", .list bodyR),
         ("decorator_list", .list decR)] info))
  | .Attribute value attr ctx pos => do
      let (s1, v) ← visit A st value
      let (s2, c) ← visit A s1 ctx
      let (s3, info) ← generic_visit A s2 (.Attribute value attr ctx pos) true
      pure (s3, .dict (dictUnion
        [("type", .str "Attribute"), ("value", v), ("attr", .str attr),
         ("ctx", c)] info))
  | .Store => pure (st, .dict [("type", .str "Store")])
  | .BitOr => pure (st, .dict [("type", .str "BitOr")])
  | .arguments posonlyargs args vararg kwonlyargs kwDefaults kwarg defaults => do
      let (s1, poaR) ← visitList A st posonlyargs
      let (s2, argsR) ← visitList A s1 args
      let (s3, vaR) ← visitOpt A s2 vararg
      let (s4, koaR) ← visitList A s3 kwonlyargs
      let (s5, kwdR) ← visitOptList A s4 kwDefaults
      let (s6, kwR) ← visitOpt A s5 kwarg
      let (s7, defR) ← visitList A s6 defaults
      pure (s7, .dict
        [("type", .str "arguments"), ("posonlyargs", .list poaR),
         ("args", .list argsR), ("vararg", vaR), ("kwonlyargs", .list koaR),
         ("kw_defaults", .list kwdR), ("kwarg", kwR), ("defaults", .list defR)])
  | .Not => pure (st, .dict [("type", .str "Not")])
  | .comprehension target iter ifs isAsync => do
      let (s1, t) ← visit A st target
      let (s2, i) ← visit A s1 iter
      let (s3, ifsR) ← visitList A s2 ifs
      pure (s3, .dict
        [("type", .str "comprehension"), ("target", t), ("iter", i),
         ("ifs", .list ifsR), ("is_async", .int isAsync)])
  | .IsNot => pure (st, .dict [("type", .str "IsNot")])
  | .Eq => pure (st, .dict [("type", .str "Eq")])
  | .withitem contextExpr optionalVars => do
      let (s1, ce) ← visit A st contextExpr
      let (s2, ov) ← visitOpt A s1 optionalVars
      pure (s2, .dict
        [("type", .str "withitem"), ("context_expr", ce), ("optional_vars", ov)])
  | .Add => pure (st, .dict [("type", .str "Add")])
  | .Subscript value slice ctx pos => do
      let (s1, v) ← visit A st value
      let (s2, sl) ← visit A s1 slice
      let (s3, c) ← visit A s2 ctx
      let (s4, info) ← generic_visit A s3 (.Subscript value slice ctx pos) true
      pure (s4, .dict (dictUnion
        [("type", .str "Subscript"), ("value", v), ("slice", sl), ("ctx", c)] info))
  | .BinOp left op right pos => do
      let (s1, l) ← visit A st left
      let (s2, o) ← visit A s1 op
      let (s3, r) ← visit A s2 right
      let (s4, info) ← generic_visit A s3 (.BinOp left op right pos) true
      pure (s4, .dict (dictUnion
        [("type", .str "BinOp"), ("left", l), ("op", o), ("right", r)] info))
  | .With items body pos tc => do
      let (s1, itemsR) ← visitList A st items
      let (s2, bodyR) ← visitList A s1 body
      let (s3, info) ← generic_visit A s2 (.With items body pos tc) true
      pure (s3, .dict (dictUnion
        [("type", .str "With"), ("items", .list itemsR), ("body", .list bodyR)] info))
  | .Assign targets value pos tc => do
      let (s1, tgtsR) ← visitList A st targets
      let (s2, v) ← visit A s1 value
      let (s3, info) ← generic_visit A s2 (.Assign targets value pos tc) true
      pure (s3, .dict (dictUnion
        [("type", .str "Assign"), ("targets", .list tgtsR), ("value", v)] info))
  | .Dict keys values pos => do
      let (s1, keysR) ← visitOptList A st keys
      let (s2, valsR) ← visitList A s1 values
      let (s3, info) ← generic_visit A s2 (.Dict keys values pos) true
      pure (s3, .dict (dictUnion
        [("type", .str "Dict"), ("keys", .list keysR), ("values", .list valsR)] info))
  | .arg argName annotation pos tc => do
      let (s1, annR) ← visitOpt A st annotation
      let (s2, info) ← generic_visit A s1 (.arg argName annotation pos tc) true
      pure (s2, .dict (dictUnion
        [("type", .str "arg"), ("arg", .str argName), ("annotation", annR)] info))
  | .Return value pos => do
      let (s1, v) ← visitOpt A st value
      let (s2, info) ← generic_visit A s1 (.Return value pos) true
      pure (s2, .dict (dictUnion [("type", .str "Return"), ("value", v)] info))
  | .FunctionDef name args body decoratorList returns pos tc => do
      let (s1, argsR) ← visit A st args
      let (s2, bodyR) ← visitList A s1 body
      let (s3, decR) ← visitList A s2 decoratorList
      let (s4, retR) ← visitOpt A s3 returns
      let (s5, info) ← generic_visit A s4 (.FunctionDef name args body decoratorList returns pos tc) true
      pure (s5, .dict (dictUnion
        [("type", .str "FunctionDef"), ("name", .str name), ("args", argsR),
         ("body", .list bodyR), ("decorator_list", .list decR),
         ("return", retR)] info))
  | .ListComp elt generators pos => do
      let (s1, e) ← visit A st elt
      let (s2, gensR) ← visitList A s1 generators
      let (s3, info) ← generic_visit A s2 (.ListComp elt generators pos) true
      pure (s3, .dict (dictUnion
        [("type", .str "ListComp"), ("elt", e), ("generators", .list gensR)] info))
  | .UnaryOp op operand pos => do
      let (s1, o) ← visit A st op
      let (s2, od) ← visit A s1 operand
      let (s3, info) ← generic_visit A s2 (.UnaryOp op operand pos) true
      pure (s3, .dict (dictUnion
        [("type", .str "UnaryOp"), ("op", o), ("operand", od)] info))
  | .Compare left ops comparators pos => do
      let (s1, opsR) ← visitList A st ops
      let (s2, compsR) ← visitList A s1 comparators
      let (s3, info) ← generic_visit A s2 (.Compare left ops comparators pos) true
      pure (s3, .dict (dictUnion
        [("type", .str "Compare"), ("ops", .list opsR),
         ("comparators", .list compsR)] info))
  | .IfExp test body orelse pos => do
      let (s1, t) ← visit A st test
      let (s2, b) ← visit A s1 body
      let (s3, o) ← visit A s2 orelse
      let (s4, info) ← generic_visit A s3 (.IfExp test body orelse pos) true
      pure (s4, .dict (dictUnion
        [("type", .str "IfExp"), ("test", t), ("body", b), ("orelse", o)] info))
  | .JoinedStr values pos => do
      let (s1, valsR) ← visitList A st values
      let (s2, info) ← generic_visit A s1 (.JoinedStr values pos) true
      pure (s2, .dict (dictUnion
        [("type", .str "JoinedStr"), ("values", .list valsR)] info))
  | .Tuple elts ctx pos => do
      let (s1, eltsR) ← visitList A st elts
      let (s2, c) ← visit A s1 ctx
      let (s3, info) ← generic_visit A s2 (.Tuple elts ctx pos) true
      pure (s3, .dict (dictUnion
        [("type", .str "Tuple"), ("elts", .list eltsR), ("ctx", c)] info))
  | .FormattedValue value conversion formatSpec pos => do
      let (s1, v) ← visit A st value
      let (s2, fsR) ← visitOpt A s1 formatSpec
      let (s3, info) ← generic_visit A s2 (.FormattedValue value conversion formatSpec pos) true
      pure (s3, .dict (dictUnion
        [("type", .str "FormattedValue"), ("value", v),
         ("conversion", .int conversion), ("format_spec", fsR)] info))
  | .For target iter body orelse pos tc => do
      let (s1, t) ← visit A st target
      let (s2, i) ← visit A s1 iter
      let (s3, bodyR) ← visitList A s2 body
      let (s4, orR) ← visitList A s3 orelse
      let (s5, info) ← generic_visit A s4 (.For target iter body orelse pos tc) true
      pure (s5, .dict (dictUnion
        [("type", .str "For"), ("target", t), ("iter", i),
         ("body", .list bodyR), ("orelse", .list orR)] info))
  | .If test body orelse pos => do
      let (s1, t) ← visit A st test
      let (s2, bodyR) ← visitList A s1 body
      let (s3, orR) ← visitList A s2 orelse
      let (s4, info) ← generic_visit A s3 (.If test body orelse pos) true
      pure (s4, .dict (dictUnion
        [("type", .str "If"), ("test", t), ("body", .list bodyR),
         ("orelse", .list orR)] info))
  | .other kind pos tc children => do
      let (s1, r) ← generic_visit A st (.other kind pos tc children) false
      pure (s1, .dict r)
termination_by (sizeOf n, 2)

/-- `DictWalker.generic_visit(node, just_get_info)`.  In fallback mode
(`just_get_info = False`) it records the class name in `missing`,
prints the diagnostic line, visits the node's children through the
inherited `NodeVisitor.generic_visit`, and adds the placeholder
`type`.  Either way it then builds the positional-metadata dict —
raising `AttributeError` when the node class lacks the position
attributes — and unions the extra `info` entries into it. -/
def generic_visit (A : Node → Nat) (st : State) (n : Node) (justGetInfo : Bool) :
    Except String (State × Rec) := do
  let (s1, info) ←
    if justGetInfo then
      pure (st, ([] : Rec))
    else do
      let stAdd : State :=
        ⟨addMissing st.missing (className n),
         st.diag ++ ["Unimplemented Node: " ++ nodeDump (A n) n]⟩
      let s2 ← visit_children A stAdd n
      pure (s2, [("type", DictAst.str ("Unimplemented: " ++ nodeDump (A n) n))])
  let tc := typeCommentOf n
  match posOf n with
  | some p => pure (s1, dictUnion (posRec p tc) info)
  | none => throw "AttributeError: lineno"
termination_by (sizeOf n, 1)

/-- The inherited `ast.NodeVisitor.generic_visit`: visit every child
node of `n` (each child dispatched through `visit`), discarding the
results.  Children are enumerated in grammar field order, exactly as
`ast.iter_child_nodes` does. -/
def visit_children (A : Node → Nat) (st : State) (n : Node) : Except String State :=
  match n with
  | .Module body => do
      let (s1, _) ← visitList A st body
      pure s1
  | .Expr value _ => do
      let (s1, _) ← visit A st value
      pure s1
  | .Call func args keywords _ => do
      let (s1, _) ← visit A st func
      let (s2, _) ← visitList A s1 args
      let (s3, _) ← visitList A s2 keywords
      pure s3
  | .Name _ ctx _ => do
      let (s1, _) ← visit A st ctx
      pure s1
  | .Load => pure st
  | .Constant _ _ _ => pure st
  | .keyword _ value _ => do
      let (s1, _) ← visit A st value
      pure s1
  | .Import names _ => do
      let (s1, _) ← visitList A st names
      pure s1
  | .alias _ _ _ => pure st
  | .ImportFrom _ names _ _ => do
      let (s1, _) ← visitList A st names
      pure s1
  | .ClassDef _ bases keywords body decoratorList _ => do
      let (s1, _) ← visitList A st bases
      let (s2, _) ← visitList A s1 keywords
      let (s3, _) ← visitList A s2 body
      let (s4, _) ← visitList A s3 decoratorList
      pure s4
  | .Attribute value _ ctx _ => do
      let (s1, _) ← visit A st value
      let (s2, _) ← visit A s1 ctx
      pure s2
  | .Store => pure st
  | .BitOr => pure st
  | .arguments posonlyargs args vararg kwonlyargs kwDefaults kwarg defaults => do
      let (s1, _) ← visitList A st posonlyargs
      let (s2, _) ← visitList A s1 args
      let (s3, _) ← visitOpt A s2 vararg
      let (s4, _) ← visitList A s3 kwonlyargs
      let (s5, _) ← visitOptList A s4 kwDefaults
      let (s6, _) ← visitOpt A s5 kwarg
      let (s7, _) ← visitList A s6 defaults
      pure s7
  | .Not => pure st
  | .comprehension target iter ifs _ => do
      let (s1, _) ← visit A st target
      let (s2, _) ← visit A s1 iter
      let (s3, _) ← visitList A s2 ifs
      pure s3
  | .IsNot => pure st
  | .Eq => pure st
  | .withitem contextExpr optionalVars => do
      let (s1, _) ← visit A st contextExpr
      let (s2, _) ← visitOpt A s1 optionalVars
      pure s2
  | .Add => pure st
  | .Subscript value slice ctx _ => do
      let (s1, _) ← visit A st value
      let (s2, _) ← visit A s1 slice
      let (s3, _) ← visit A s2 ctx
      pure s3
  | .BinOp left op right _ => do
      let (s1, _) ← visit A st left
      let (s2, _) ← visit A s1 op
      let (s3, _) ← visit A s2 right
      pure s3
  | .With items body _ _ => do
      let (s1, _) ← visitList A st items
      let (s2, _) ← visitList A s1 body
      pure s2
  | .Assign targets value _ _ => do
      let (s1, _) ← visitList A st targets
      let (s2, _) ← visit A s1 value
      pure s2
  | .Dict keys values _ => do
      let (s1, _) ← visitOptList A st keys
      let (s2, _) ← visitList A s1 values
      pure s2
  | .arg _ annotation _ _ => do
      let (s1, _) ← visitOpt A st annotation
      pure s1
  | .Return value _ => do
      let (s1, _) ← visitOpt A st value
      pure s1
  | .FunctionDef _ args body decoratorList returns _ _ => do
      let (s1, _) ← visit A st args
      let (s2, _) ← visitList A s1 body
      let (s3, _) ← visitList A s2 decoratorList
      let (s4, _) ← visitOpt A s3 returns
      pure s4
  | .ListComp elt generators _ => do
      let (s1, _) ← visit A st elt
      let (s2, _) ← visitList A s1 generators
      pure s2
  | .UnaryOp op operand _ => do
      let (s1, _) ← visit A st op
      let (s2, _) ← visit A s1 operand
      pure s2
  | .Compare left ops comparators _ => do
      let (s1, _) ← visit A st left
      let (s2, _) ← visitList A s1 ops
      let (s3, _) ← visitList A s2 comparators
      pure s3
  | .IfExp test body orelse _ => do
      let (s1, _) ← visit A st test
      let (s2, _) ← visit A s1 body
      let (s3, _) ← visit A s2 orelse
      pure s3
  | .JoinedStr values _ => do
      let (s1, _) ← visitList A st values
      pure s1
  | .Tuple elts ctx _ => do
      let (s1, _) ← visitList A st elts
      let (s2, _) ← visit A s1 ctx
      pure s2
  | .FormattedValue value _ formatSpec _ => do
      let (s1, _) ← visit A st value
      let (s2, _) ← visitOpt A s1 formatSpec
      pure s2
  | .For target iter body orelse _ _ => do
      let (s1, _) ← visit A st target
      let (s2, _) ← visit A s1 iter
      let (s3, _) ← visitList A s2 body
      let (s4, _) ← visitList A s3 orelse
      pure s4
  | .If test body orelse _ => do
      let (s1, _) ← visit A st test
      let (s2, _) ← visitList A s1 body
      let (s3, _) ← visitList A s2 orelse
      pure s3
  | .other _ _ _ children => do
      let (s1, _) ← visitList A st children
      pure s1
termination_by (sizeOf n, 0)

/-- `list(map(self.visit, xs))`: convert a sequence field in source
order. -/
def visitList (A : Node → Nat) (st : State) (ns : List Node) :
    Except String (State × List DictAst) :=
  match ns with
  | [] => pure (st, [])
  | n :: rest => do
      let (s1, r) ← visit A st n
      let (s2, rs) ← visitList A s1 rest
      pure (s2, r :: rs)
termination_by (sizeOf ns, 0)

/-- `[self.visit(x) if x is not None else None for x in xs]`:
convert a sequence of optional sub-nodes, serializing absent entries
as null. -/
def visitOptList (A : Node → Nat) (st : State) (ns : List (Option Node)) :
    Except String (State × List DictAst) :=
  match ns with
  | [] => pure (st, [])
  | o :: rest => do
      let (s1, r) ← visitOpt A st o
      let (s2, rs) ← visitOptList A s1 rest
      pure (s2, r :: rs)
termination_by (sizeOf ns, 0)

/-- `self.visit(x) if x is not None else None`: convert an optional
sub-node, serializing absence as null. -/
def visitOpt (A : Node → Nat) (st : State) (o : Option Node) :
    Except String (State × DictAst) :=
  match o with
  | some n => visit A st n
  | none => pure (st, .null)
termination_by (sizeOf o, 0)

end

variable (A : Node → Nat)

/-- The positional-metadata computation of `generic_visit` in info-only
mode, as a pure function of the node: the five-field record, or the
`AttributeError` raised when the node class lacks position
attributes. -/
def info_only (n : Node) : Except String Rec :=
  match posOf n with
  | some p => pure (posRec p (typeCommentOf n))
  | none => throw "AttributeError: lineno"

mutual

/-- The kind tags of the unconverted (`other`) nodes the walk actually
reaches, in traversal order.  This mirrors the sub-node fields each
`visit_<Kind>` method converts — in particular `visit_Compare` never
visits `node.left`, so unconverted kinds inside a comparison's left
operand are not collected. -/
def missKinds : Node → List String
  | .Module body => missKindsL body
  | .Expr v _ => missKinds v
  | .Call f args kws _ => missKinds f ++ missKindsL args ++ missKindsL kws
  | .Name _ ctx _ => missKinds ctx
  | .Load => []
  | .Constant _ _ _ => []
  | .keyword _ v _ => missKinds v
  | .Import names _ => missKindsL names
  | .alias _ _ _ => []
  | .ImportFrom _ names _ _ => missKindsL names
  | .ClassDef _ bases kws body dl _ =>
      missKindsL bases ++ missKindsL kws ++ missKindsL body ++ missKindsL dl
  | .Attribute v _ ctx _ => missKinds v ++ missKinds ctx
  | .Store => []
  | .BitOr => []
  | .arguments poa args va koa kwd kw defs =>
      missKindsL poa ++ missKindsL args ++ missKindsO va ++ missKindsL koa ++
      missKindsOL kwd ++ missKindsO kw ++ missKindsL defs
  | .Not => []
  | .comprehension t i ifs _ => missKinds t ++ missKinds i ++ missKindsL ifs
  | .IsNot => []
  | .Eq => []
  | .withitem ce ov => missKinds ce ++ missKindsO ov
  | .Add => []
  | .Subscript v s c _ => missKinds v ++ missKinds s ++ missKinds c
  | .BinOp l o r _ => missKinds l ++ missKinds o ++ missKinds r
  | .With items body _ _ => missKindsL items ++ missKindsL body
  | .Assign tgts v _ _ => missKindsL tgts ++ missKinds v
  | .Dict keys vals _ => missKindsOL keys ++ missKindsL vals
  | .arg _ ann _ _ => missKindsO ann
  | .Return v _ => missKindsO v
  | .FunctionDef _ args body dl ret _ _ =>
      missKinds args ++ missKindsL body ++ missKindsL dl ++ missKindsO ret
  | .ListComp e gens _ => missKinds e ++ missKindsL gens
  | .UnaryOp o od _ => missKinds o ++ missKinds od
  | .Compare _ ops comps _ => missKindsL ops ++ missKindsL comps
  | .IfExp t b o _ => missKinds t ++ missKinds b ++ missKinds o
  | .JoinedStr vals _ => missKindsL vals
  | .Tuple elts ctx _ => missKindsL elts ++ missKinds ctx
  | .FormattedValue v _ fs _ => missKinds v ++ missKindsO fs
  | .For t i b o _ _ => missKinds t ++ missKinds i ++ missKindsL b ++ missKindsL o
  | .If t b o _ => missKinds t ++ missKindsL b ++ missKindsL o
  | .other k _ _ ch => k :: missKindsL ch
termination_by n => (sizeOf n, 1)

/-- Unconverted kinds reached when the fallback visits a node's
children through `NodeVisitor.generic_visit` (full grammar child
enumeration, `Compare.left` included). -/
def missKindsC : Node → List String
  | .Module body => missKindsL body
  | .Expr v _ => missKinds v
  | .Call f args kws _ => missKinds f ++ missKindsL args ++ missKindsL kws
  | .Name _ ctx _ => missKinds ctx
  | .Load => []
  | .Constant _ _ _ => []
  | .keyword _ v _ => missKinds v
  | .Import names _ => missKindsL names
  | .alias _ _ _ => []
  | .ImportFrom _ names _ _ => missKindsL names
  | .ClassDef _ bases kws body dl _ =>
      missKindsL bases ++ missKindsL kws ++ missKindsL body ++ missKindsL dl
  | .Attribute v _ ctx _ => missKinds v ++ missKinds ctx
  | .Store => []
  | .BitOr => []
  | .arguments poa args va koa kwd kw defs =>
      missKindsL poa ++ missKindsL args ++ missKindsO va ++ missKindsL koa ++
      missKindsOL kwd ++ missKindsO kw ++ missKindsL defs
  | .Not => []
  | .comprehension t i ifs _ => missKinds t ++ missKinds i ++ missKindsL ifs
  | .IsNot => []
  | .Eq => []
  | .withitem ce ov => missKinds ce ++ missKindsO ov
  | .Add => []
  | .Subscript v s c _ => missKinds v ++ missKinds s ++ missKinds c
  | .BinOp l o r _ => missKinds l ++ missKinds o ++ missKinds r
  | .With items body _ _ => missKindsL items ++ missKindsL body
  | .Assign tgts v _ _ => missKindsL tgts ++ missKinds v
  | .Dict keys vals _ => missKindsOL keys ++ missKindsL vals
  | .arg _ ann _ _ => missKindsO ann
  | .Return v _ => missKindsO v
  | .FunctionDef _ args body dl ret _ _ =>
      missKinds args ++ missKindsL body ++ missKindsL dl ++ missKindsO ret
  | .ListComp e gens _ => missKinds e ++ missKindsL gens
  | .UnaryOp o od _ => missKinds o ++ missKinds od
  | .Compare l ops comps _ => missKinds l ++ missKindsL ops ++ missKindsL comps
  | .IfExp t b o _ => missKinds t ++ missKinds b ++ missKinds o
  | .JoinedStr vals _ => missKindsL vals
  | .Tuple elts ctx _ => missKindsL elts ++ missKinds ctx
  | .FormattedValue v _ fs _ => missKinds v ++ missKindsO fs
  | .For t i b o _ _ => missKinds t ++ missKinds i ++ missKindsL b ++ missKindsL o
  | .If t b o _ => missKinds t ++ missKindsL b ++ missKindsL o
  | .other _ _ _ ch => missKindsL ch

/-- `missKinds` over a sequence field, in order. -/
def missKindsL : List Node → List String
  | [] => []
  | n :: rest => missKinds n ++ missKindsL rest
termination_by ns => (sizeOf ns, 0)

/-- `missKinds` over a sequence of optional sub-nodes. -/
def missKindsOL : List (Option Node) → List String
  | [] => []
  | o :: rest => missKindsO o ++ missKindsOL rest
termination_by ns => (sizeOf ns, 0)

/-- `missKinds` over an optional sub-node. -/
def missKindsO : Option Node → List String
  | some n => missKinds n
  | none => []
termination_by o => (sizeOf o, 0)

end

/-- The kind tags `generic_visit` adds to the missing set: none in
info-only mode; the node's own class name followed by whatever the
child walk reaches in fallback mode. -/
def genKinds (n : Node) (b : Bool) : List String :=
  if b then [] else className n :: missKindsC n

mutual

/-- All kind tags without a specific converter occurring anywhere in
the tree, structurally (this is the claim-level notion "the input tree
contains the unconverted kinds ...", independent of what the walk
reaches). -/
def treeKinds : Node → List String
  | .Module body => treeKindsL body
  | .Expr v _ => treeKinds v
  | .Call f args kws _ => treeKinds f ++ treeKindsL args ++ treeKindsL kws
  | .Name _ ctx _ => treeKinds ctx
  | .Load => []
  | .Constant _ _ _ => []
  | .keyword _ v _ => treeKinds v
  | .Import names _ => treeKindsL names
  | .alias _ _ _ => []
  | .ImportFrom _ names _ _ => treeKindsL names
  | .ClassDef _ bases kws body dl _ =>
      treeKindsL bases ++ treeKindsL kws ++ treeKindsL body ++ treeKindsL dl
  | .Attribute v _ ctx _ => treeKinds v ++ treeKinds ctx
  | .Store => []
  | .BitOr => []
  | .arguments poa args va koa kwd kw defs =>
      treeKindsL poa ++ treeKindsL args ++ treeKindsO va ++ treeKindsL koa ++
      treeKindsOL kwd ++ treeKindsO kw ++ treeKindsL defs
  | .Not => []
  | .comprehension t i ifs _ => treeKinds t ++ treeKinds i ++ treeKindsL ifs
  | .IsNot => []
  | .Eq => []
  | .withitem ce ov => treeKinds ce ++ treeKindsO ov
  | .Add => []
  | .Subscript v s c _ => treeKinds v ++ treeKinds s ++ treeKinds c
  | .BinOp l o r _ => treeKinds l ++ treeKinds o ++ treeKinds r
  | .With items body _ _ => treeKindsL items ++ treeKindsL body
  | .Assign tgts v _ _ => treeKindsL tgts ++ treeKinds v
  | .Dict keys vals _ => treeKindsOL keys ++ treeKindsL vals
  | .arg _ ann _ _ => treeKindsO ann
  | .Return v _ => treeKindsO v
  | .FunctionDef _ args body dl ret _ _ =>
      treeKinds args ++ treeKindsL body ++ treeKindsL dl ++ treeKindsO ret
  | .ListComp e gens _ => treeKinds e ++ treeKindsL gens
  | .UnaryOp o od _ => treeKinds o ++ treeKinds od
  | .Compare l ops comps _ => treeKinds l ++ treeKindsL ops ++ treeKindsL comps
  | .IfExp t b o _ => treeKinds t ++ treeKinds b ++ treeKinds o
  | .JoinedStr vals _ => treeKindsL vals
  | .Tuple elts ctx _ => treeKindsL elts ++ treeKinds ctx
  | .FormattedValue v _ fs _ => treeKinds v ++ treeKindsO fs
  | .For t i b o _ _ => treeKinds t ++ treeKinds i ++ treeKindsL b ++ treeKindsL o
  | .If t b o _ => treeKinds t ++ treeKindsL b ++ treeKindsL o
  | .other k _ _ ch => k :: treeKindsL ch
termination_by n => sizeOf n

/-- `treeKinds` over a sequence field. -/
def treeKindsL : List Node → List String
  | [] => []
  | n :: rest => treeKinds n ++ treeKindsL rest
termination_by ns => sizeOf ns

/-- `treeKinds` over a sequence of optional sub-nodes. -/
def treeKindsOL : List (Option Node) → List String
  | [] => []
  | o :: rest => treeKindsO o ++ treeKindsOL rest
termination_by ns => sizeOf ns

/-- `treeKinds` over an optional sub-node. -/
def treeKindsO : Option Node → List String
  | some n => treeKinds n
  | none => []
termination_by o => sizeOf o

end

/-- Escaping of one character inside a JSON string literal (the model
of the external `json` encoder collaborator). -/
def escapeChar (c : Char) : List Char :=
  if c = '"' then ['\\', '"']
  else if c = '\\' then ['\\', '\\']
  else if c = '\n' then ['\\', 'n']
  else [c]

/-- Character-by-character escaping of a string body. -/
def escapeList : List Char → List Char
  | [] => []
  | c :: cs => escapeChar c ++ escapeList cs

/-- Escaping of a whole string for a JSON string literal. -/
def escape (s : String) : String :=
  String.mk (escapeList s.data)

mutual

/-- The `json.dump` collaborator: deterministic compact JSON encoding
of a structural record. -/
def encode : DictAst → String
  | .str s => "\"" ++ escape s ++ "\""
  | .int n => toString n
  | .bool b => if b then "true" else "false"
  | .null => "null"
  | .dict fields => "\x7b" ++ encodeFields fields ++ "\x7d"
  | .list elems => "[" ++ encodeElems elems ++ "]"

/-- Encoding of the comma-separated key/value entries of a dict. -/
def encodeFields : List (String × DictAst) → String
  | [] => ""
  | [(k, v)] => "\"" ++ escape k ++ "\": " ++ encode v
  | (k, v) :: rest => "\"" ++ escape k ++ "\": " ++ encode v ++ ", " ++ encodeFields rest

/-- Encoding of the comma-separated elements of a list. -/
def encodeElems : List DictAst → String
  | [] => ""
  | [v] => encode v
  | v :: rest => encode v ++ ", " ++ encodeElems rest

end

/-- The primary output channel content for one run: the JSON text of
the root's structural record (the `json.dump(dict_code, sys.stdout)`
step of `__main__`), as produced by a process whose walker state is
`st`. -/
def primaryOutput (st : State) (t : Node) : Except String String :=
  (visit A st t).map (fun p => encode p.2)

/-- The kind tags having a dedicated `visit_<Kind>` method in
`DictWalker`. An `other` node stands for a node of any kind outside
this list. -/
def implementedTags : List String :=
  ["Module", "Expr", "Call", "Name", "Load", "Constant", "keyword",
   "Import", "alias", "ImportFrom", "ClassDef", "Attribute", "Store",
   "BitOr", "arguments", "Not", "comprehension", "IsNot", "Eq",
   "withitem", "Add", "Subscript", "BinOp", "With", "Assign", "Dict",
   "arg", "Return", "FunctionDef", "ListComp", "UnaryOp", "Compare",
   "IfExp", "JoinedStr", "Tuple", "FormattedValue", "For", "If"]

/-- The kind tag of the specific converter handling a node, if any
(none for `other` nodes, which fall back to `generic_visit`). -/
def specificTag : Node → Option String
  | .other _ _ _ _ => none
  | n => some (className n)

/-- Whether the converter for this node merges the positional-metadata
record into its result (`... | self.generic_visit(node, True)` for the
specific converters that do, and the fallback's own metadata record
for `other` nodes). `visit_Module`, `visit_Load`, `visit_Store`,
`visit_BitOr`, `visit_Not`, `visit_IsNot`, `visit_Eq`, `visit_Add`,
`visit_keyword`, `visit_arguments`, `visit_comprehension` and
`visit_withitem` do not. -/
def mergesInfo : Node → Bool
  | .Module _ => false
  | .Load => false
  | .Store => false
  | .BitOr => false
  | .Not => false
  | .IsNot => false
  | .Eq => false
  | .Add => false
  | .keyword _ _ _ => false
  | .arguments _ _ _ _ _ _ _ => false
  | .comprehension _ _ _ _ => false
  | .withitem _ _ => false
  | _ => true

/-- Combination of a start state with the state delta of a sub-walk
performed from the empty start state. -/
def compSt (st δ : State) : State :=
  ⟨addAll st.missing δ.missing, st.diag ++ δ.diag⟩

/-- Transport of a walk result obtained from the empty start state to
an arbitrary start state. -/
def liftE (st : State) (x : Except String (State × α)) :
    Except String (State × α) :=
  x.map (fun p => (compSt st p.1, p.2))

/-- Transport for the child-visiting walk (which returns only a
state). -/
def liftS (st : State) (x : Except String State) : Except String State :=
  x.map (compSt st)

/-- The walker state is inhabited (by the start state). -/
instance : Nonempty State := ⟨initState⟩

/-- A sample position used by concrete test trees. -/
def pos0 : Pos := ⟨1, 0, 1, 5⟩

/-- Reduction of `>>=` on a success value. -/
@[simp] theorem ok_bind {α β : Type} (a : α) (f : α → Except String β) :
    (Except.ok a : Except String α) >>= f = f a := rfl

/-- Reduction of `>>=` on an error value. -/
@[simp] theorem error_bind {α β : Type} (e : String) (f : α → Except String β) :
    (Except.error e : Except String α) >>= f = Except.error e := rfl

/-- Reduction of `Except.map` on a success value. -/
@[simp] theorem map_ok {α β : Type} (f : α → β) (a : α) :
    (Except.ok a : Except String α).map f = Except.ok (f a) := rfl

/-- Reduction of `Except.map` on an error value. -/
@[simp] theorem map_error {α β : Type} (f : α → β) (e : String) :
    (Except.error e : Except String α).map f = Except.error e := rfl

/-- A bound computation succeeds iff both stages do. -/
theorem bind_ok_iff {α β : Type} (x : Except String α) (f : α → Except String β) (b : β) :
    (x >>= f = Except.ok b) ↔ ∃ a, x = Except.ok a ∧ f a = Except.ok b := by
  cases x <;> simp

/-- A union with the empty record is the identity. -/
@[simp] theorem dictUnion_nil (d : Rec) : dictUnion d [] = d := rfl

/-- Membership in the set after one insertion. -/
theorem mem_addMissing (m : List String) (k a : String) :
    a ∈ addMissing m k ↔ a ∈ m ∨ a = k := by
  unfold addMissing
  split <;> simp_all

/-- Membership in the set after inserting a whole list. -/
theorem mem_addAll (m l : List String) (a : String) :
    a ∈ addAll m l ↔ a ∈ m ∨ a ∈ l := by
  induction l generalizing m with
  | nil => simp [addAll]
  | cons x xs ih =>
      show a ∈ addAll (addMissing m x) xs ↔ _
      rw [ih, mem_addMissing]
      simp [or_assoc]

/-- Inserting an appended list is insertion in two stages. -/
theorem addAll_append (m l1 l2 : List String) :
    addAll m (l1 ++ l2) = addAll (addAll m l1) l2 :=
  List.foldl_append ..

/-- Insertion of an already-inserted element is a no-op after further
insertions on the left. -/
theorem addAll_addMissing (A B : List String) (c : String) :
    addAll A (addMissing B c) = addMissing (addAll A B) c := by
  unfold addMissing
  split
  · rw [if_pos]
    rw [mem_addAll]; right; assumption
  · rw [addAll_append]
    rfl

/-- Set insertion of list elements is associative in the sense needed
to compose walk deltas. -/
theorem addAll_assoc (A B C : List String) :
    addAll (addAll A B) C = addAll A (addAll B C) := by
  induction C generalizing B with
  | nil => rfl
  | cons c cs ih =>
      show addAll (addMissing (addAll A B) c) cs = addAll A (addAll (addMissing B c) cs)
      rw [← addAll_addMissing, ih]

/-- Insertions keep the missing set duplicate-free. -/
theorem nodup_addAll (m l : List String) (h : m.Nodup) : (addAll m l).Nodup := by
  induction l generalizing m with
  | nil => exact h
  | cons x xs ih =>
      show (addAll (addMissing m x) xs).Nodup
      apply ih
      unfold addMissing
      split
      · exact h
      · rw [List.nodup_append]
        refine ⟨h, List.nodup_singleton _, ?_⟩
        intro a ha hax
        simp only [List.mem_singleton] at hax
        subst hax
        simp_all

/-- Combining with the empty delta is the identity. -/
@[simp] theorem compSt_init (st : State) : compSt st initState = st := by
  simp [compSt, initState, addAll]

/-- Delta composition is associative. -/
theorem compSt_assoc (a b c : State) :
    compSt (compSt a b) c = compSt a (compSt b c) := by
  simp [compSt, addAll_assoc]

/-- Reduction of `liftE` on a success value. -/
@[simp] theorem liftE_ok {α : Type} (st δ : State) (a : α) :
    liftE st (Except.ok (δ, a)) = Except.ok (compSt st δ, a) := rfl

/-- Reduction of `liftE` on an error value. -/
@[simp] theorem liftE_error {α : Type} (st : State) (e : String) :
    liftE st (Except.error e : Except String (State × α)) = Except.error e := rfl

/-- Reduction of `liftS` on a success value. -/
@[simp] theorem liftS_ok (st δ : State) : liftS st (Except.ok δ) = Except.ok (compSt st δ) := rfl

/-- Reduction of `liftS` on an error value. -/
@[simp] theorem liftS_error (st : State) (e : String) :
    liftS st (Except.error e) = Except.error e := rfl

/-- Transport commutes with sequencing, provided the continuation
transports pointwise. -/
theorem liftE_bind {α β : Type} (st : State) (x : Except String (State × α))
    (f : State × α → Except String (State × β))
    (hf : ∀ δ a, f (compSt st δ, a) = liftE st (f (δ, a))) :
    (liftE st x >>= f) = liftE st (x >>= f) := by
  cases x with
  | error e => rfl
  | ok p => obtain ⟨δ, a⟩ := p; rw [liftE_ok]; exact hf δ a

/-- Transport commutes with sequencing into a state-only result. -/
theorem liftS_bind {α : Type} (st : State) (x : Except String (State × α))
    (f : State × α → Except String State)
    (hf : ∀ δ a, f (compSt st δ, a) = liftS st (f (δ, a))) :
    (liftE st x >>= f) = liftS st (x >>= f) := by
  cases x with
  | error e => rfl
  | ok p => obtain ⟨δ, a⟩ := p; rw [liftE_ok]; exact hf δ a

/-- Transport of a state-only stage into a sequenced pair-producing
stage. -/
theorem liftSE_bind {β : Type} (st : State) (x : Except String State)
    (f : State → Except String (State × β))
    (hf : ∀ δ, f (compSt st δ) = liftE st (f δ)) :
    (liftS st x >>= f) = liftE st (x >>= f) := by
  cases x with
  | error e => rfl
  | ok δ => rw [liftS_ok]; exact hf δ

/-- Info-only metadata extraction is effect-free: the state passes
through untouched and the record depends only on the node. -/
theorem generic_visit_true (st : State) (n : Node) :
    generic_visit A st n true = (info_only n).map (fun r => (st, r)) := by
  rw [generic_visit]
  simp only [info_only]
  cases posOf n <;> simp [pure, Except.pure, throw, throwThe, MonadExceptOf.throw]

/-- Info-only metadata extraction transports along delta composition. -/
theorem lift_generic_true (s' st : State) (n : Node) :
    generic_visit A (compSt s' st) n true = liftE s' (generic_visit A st n true) := by
  rw [generic_visit_true, generic_visit_true]
  cases info_only n <;> simp [liftE]

/-- The fallback bookkeeping (set insertion and diagnostic print)
transports along delta composition. -/
theorem compSt_bookkeep (s' st : State) (k line : String) :
    (⟨addMissing (compSt s' st).missing k, (compSt s' st).diag ++ [line]⟩ : State) =
      compSt s' ⟨addMissing st.missing k, st.diag ++ [line]⟩ := by
  simp [compSt, addAll_addMissing, addAll_append]

/-- A mapped computation succeeds iff the underlying one does. -/
theorem map_eq_ok {α β : Type} (x : Except String α) (g : α → β) (b : β) :
    (x.map g = Except.ok b) ↔ ∃ a, x = Except.ok a ∧ g a = b := by
  cases x <;> simp [Except.map]

/-- A mapped-then-bound computation succeeds iff both stages do. -/
theorem map_bind_ok {α β γ : Type} (x : Except String α) (g : α → β)
    (f : β → Except String γ) (c : γ) :
    (x.map g >>= f = Except.ok c) ↔ ∃ a, x = Except.ok a ∧ f (g a) = Except.ok c := by
  cases x <;> simp [Except.map]

theorem lift_law_all :
    (∀ st n, ∀ s', visit A (compSt s' st) n = liftE s' (visit A st n)) ∧
    (∀ st os, ∀ s', visitOptList A (compSt s' st) os = liftE s' (visitOptList A st os)) ∧
    (∀ st o, ∀ s', visitOpt A (compSt s' st) o = liftE s' (visitOpt A st o)) ∧
    (∀ st n b, ∀ s', generic_visit A (compSt s' st) n b = liftE s' (generic_visit A st n b)) ∧
    (∀ st n, ∀ s', visit_children A (compSt s' st) n = liftS s' (visit_children A st n)) ∧
    (∀ st ns, ∀ s', visitList A (compSt s' st) ns = liftE s' (visitList A st ns)) := by
  apply visit.mutual_induct A
  case case44 => exact fun st n s' => lift_generic_true A s' st n
  case case45 =>
    intro st n b hb stAdd ih
    cases b with
    | true => exact absurd rfl hb
    | false =>
      intro s'
      simp only [generic_visit, Bool.false_eq_true, if_false]
      rw [compSt_bookkeep]
      rw [ih]
      refine liftSE_bind _ _ _ ?_
      intro δ
      dsimp only
      cases posOf n <;> rfl
  all_goals
    intros
    simp only [visit, visit_children, visitList, visitOpt, visitOptList]
    repeat
      first
      | rfl
      | (refine liftE_bind _ _ _ ?_
         intro _ _
         dsimp only)
      | (refine liftS_bind _ _ _ ?_
         intro _ _
         dsimp only)
      | (simp only [*])

/-- Any walk is its empty-state walk transported to the start state. -/
theorem visit_lift (st : State) (n : Node) :
    visit A st n = liftE st (visit A initState n) := by
  have h := (lift_law_all A).1 initState n st
  rwa [compSt_init] at h

/-- Any sequence walk is its empty-state walk transported. -/
theorem visitList_lift (st : State) (ns : List Node) :
    visitList A st ns = liftE st (visitList A initState ns) := by
  have h := (lift_law_all A).2.2.2.2.2 initState ns st
  rwa [compSt_init] at h

/-- Any optional-node walk is its empty-state walk transported. -/
theorem visitOpt_lift (st : State) (o : Option Node) :
    visitOpt A st o = liftE st (visitOpt A initState o) := by
  have h := (lift_law_all A).2.2.1 initState o st
  rwa [compSt_init] at h

/-- Any optional-sequence walk is its empty-state walk transported. -/
theorem visitOptList_lift (st : State) (os : List (Option Node)) :
    visitOptList A st os = liftE st (visitOptList A initState os) := by
  have h := (lift_law_all A).2.1 initState os st
  rwa [compSt_init] at h

/-- Any metadata extraction is its empty-state extraction transported. -/
theorem generic_visit_lift (st : State) (n : Node) (b : Bool) :
    generic_visit A st n b = liftE st (generic_visit A initState n b) := by
  have h := (lift_law_all A).2.2.2.1 initState n b st
  rwa [compSt_init] at h

/-- Any child walk is its empty-state child walk transported. -/
theorem visit_children_lift (st : State) (n : Node) :
    visit_children A st n = liftS st (visit_children A initState n) := by
  have h := (lift_law_all A).2.2.2.2.1 initState n st
  rwa [compSt_init] at h

/-- Sequencing after a node walk, decomposed through the empty-state
walk. -/
theorem visit_bind_ok {β : Type} (st : State) (n : Node)
    (f : State × DictAst → Except String β) (c : β) :
    (visit A st n >>= f = Except.ok c) ↔
      ∃ δ a, visit A initState n = Except.ok (δ, a) ∧ f (compSt st δ, a) = Except.ok c := by
  rw [visit_lift A st]
  cases h : visit A initState n with
  | error e => simp [liftE]
  | ok p =>
      obtain ⟨δ, a⟩ := p
      simp only [liftE_ok, ok_bind, Except.ok.injEq, Prod.mk.injEq]
      constructor
      · intro h2
        exact ⟨δ, a, ⟨rfl, rfl⟩, h2⟩
      · rintro ⟨δ1, a1, ⟨rfl, rfl⟩, h2⟩
        exact h2

/-- Sequencing after a sequence walk, decomposed through the
empty-state walk. -/
theorem visitList_bind_ok {β : Type} (st : State) (ns : List Node)
    (f : State × List DictAst → Except String β) (c : β) :
    (visitList A st ns >>= f = Except.ok c) ↔
      ∃ δ a, visitList A initState ns = Except.ok (δ, a) ∧ f (compSt st δ, a) = Except.ok c := by
  rw [visitList_lift A st]
  cases h : visitList A initState ns with
  | error e => simp [liftE]
  | ok p =>
      obtain ⟨δ, a⟩ := p
      simp only [liftE_ok, ok_bind, Except.ok.injEq, Prod.mk.injEq]
      constructor
      · intro h2
        exact ⟨δ, a, ⟨rfl, rfl⟩, h2⟩
      · rintro ⟨δ1, a1, ⟨rfl, rfl⟩, h2⟩
        exact h2

/-- Sequencing after an optional-node walk, decomposed through the
empty-state walk. -/
theorem visitOpt_bind_ok {β : Type} (st : State) (o : Option Node)
    (f : State × DictAst → Except String β) (c : β) :
    (visitOpt A st o >>= f = Except.ok c) ↔
      ∃ δ a, visitOpt A initState o = Except.ok (δ, a) ∧ f (compSt st δ, a) = Except.ok c := by
  rw [visitOpt_lift A st]
  cases h : visitOpt A initState o with
  | error e => simp [liftE]
  | ok p =>
      obtain ⟨δ, a⟩ := p
      simp only [liftE_ok, ok_bind, Except.ok.injEq, Prod.mk.injEq]
      constructor
      · intro h2
        exact ⟨δ, a, ⟨rfl, rfl⟩, h2⟩
      · rintro ⟨δ1, a1, ⟨rfl, rfl⟩, h2⟩
        exact h2

/-- Sequencing after an optional-sequence walk, decomposed through the
empty-state walk. -/
theorem visitOptList_bind_ok {β : Type} (st : State) (os : List (Option Node))
    (f : State × List DictAst → Except String β) (c : β) :
    (visitOptList A st os >>= f = Except.ok c) ↔
      ∃ δ a, visitOptList A initState os = Except.ok (δ, a) ∧ f (compSt st δ, a) = Except.ok c := by
  rw [visitOptList_lift A st]
  cases h : visitOptList A initState os with
  | error e => simp [liftE]
  | ok p =>
      obtain ⟨δ, a⟩ := p
      simp only [liftE_ok, ok_bind, Except.ok.injEq, Prod.mk.injEq]
      constructor
      · intro h2
        exact ⟨δ, a, ⟨rfl, rfl⟩, h2⟩
      · rintro ⟨δ1, a1, ⟨rfl, rfl⟩, h2⟩
        exact h2

/-- Sequencing after a metadata extraction, decomposed through the
empty-state extraction. -/
theorem generic_bind_ok {β : Type} (st : State) (n : Node) (b : Bool)
    (f : State × Rec → Except String β) (c : β) :
    (generic_visit A st n b >>= f = Except.ok c) ↔
      ∃ δ a, generic_visit A initState n b = Except.ok (δ, a) ∧
        f (compSt st δ, a) = Except.ok c := by
  rw [generic_visit_lift A st]
  cases h : generic_visit A initState n b with
  | error e => simp [liftE]
  | ok p =>
      obtain ⟨δ, a⟩ := p
      simp only [liftE_ok, ok_bind, Except.ok.injEq, Prod.mk.injEq]
      constructor
      · intro h2
        exact ⟨δ, a, ⟨rfl, rfl⟩, h2⟩
      · rintro ⟨δ1, a1, ⟨rfl, rfl⟩, h2⟩
        exact h2

/-- Sequencing after a child walk, decomposed through the empty-state
child walk. -/
theorem visit_children_bind_ok {β : Type} (st : State) (n : Node)
    (f : State → Except String β) (c : β) :
    (visit_children A st n >>= f = Except.ok c) ↔
      ∃ δ, visit_children A initState n = Except.ok δ ∧ f (compSt st δ) = Except.ok c := by
  rw [visit_children_lift A st]
  cases h : visit_children A initState n with
  | error e => simp [liftS]
  | ok δ =>
      simp only [liftS_ok, ok_bind, Except.ok.injEq]
      constructor
      · intro h2
        exact ⟨δ, rfl, h2⟩
      · rintro ⟨δ1, rfl, h2⟩
        exact h2

theorem miss_trace_all :
    (∀ (_ : State) (n : Node), ∀ δ d, visit A initState n = .ok (δ, d) →
        ∀ k, k ∈ δ.missing ↔ k ∈ missKinds n) ∧
    (∀ (_ : State) (os : List (Option Node)), ∀ δ d, visitOptList A initState os = .ok (δ, d) →
        ∀ k, k ∈ δ.missing ↔ k ∈ missKindsOL os) ∧
    (∀ (_ : State) (o : Option Node), ∀ δ d, visitOpt A initState o = .ok (δ, d) →
        ∀ k, k ∈ δ.missing ↔ k ∈ missKindsO o) ∧
    (∀ (_ : State) (n : Node) (b : Bool), ∀ δ r, generic_visit A initState n b = .ok (δ, r) →
        ∀ k, k ∈ δ.missing ↔ k ∈ genKinds n b) ∧
    (∀ (_ : State) (n : Node), ∀ δ, visit_children A initState n = .ok δ →
        ∀ k, k ∈ δ.missing ↔ k ∈ missKindsC n) ∧
    (∀ (_ : State) (ns : List Node), ∀ δ ds, visitList A initState ns = .ok (δ, ds) →
        ∀ k, k ∈ δ.missing ↔ k ∈ missKindsL ns) := by
  apply visit.mutual_induct A
  case case44 =>
    intro st n δ r h k
    rw [generic_visit_true, map_eq_ok] at h
    obtain ⟨a, ha, h⟩ := h
    simp only [Prod.mk.injEq] at h
    simp [← h.1, genKinds, initState]
  case case45 =>
    intro st n b hb
    dsimp only
    intro ih δ r h k
    cases b with
    | true => exact absurd rfl hb
    | false =>
      simp only [generic_visit, Bool.false_eq_true, if_false] at h
      rw [visit_children_bind_ok] at h
      obtain ⟨δc, hc, h⟩ := h
      rw [bind_ok_iff] at h
      obtain ⟨y, hy, h⟩ := h
      simp only [pure, Except.pure, Except.ok.injEq] at hy
      subst hy
      dsimp only at h
      cases hp : posOf n <;> rw [hp] at h
      · simp [throw, throwThe, MonadExceptOf.throw] at h
      · simp only [pure, Except.pure, Except.ok.injEq, Prod.mk.injEq] at h
        obtain ⟨h1, h2⟩ := h
        subst h1
        have e := ih δc hc k
        simp [e, genKinds, compSt, mem_addAll, mem_addMissing, initState,
          addMissing, List.mem_cons, or_assoc]
  all_goals
    intros
    rename_i x h k
    try simp only [visit, visit_children, visitList, visitOpt, visitOptList,
      generic_visit_true] at h
    try simp only [visit_bind_ok, visitList_bind_ok, visitOpt_bind_ok,
      visitOptList_bind_ok, generic_bind_ok, map_bind_ok, map_eq_ok, pure,
      Except.pure, Except.ok.injEq, Prod.mk.injEq] at h
    repeat
      first
      | (obtain ⟨_, _, _, h⟩ := h)
      | (obtain ⟨_, _, h⟩ := h)
      | (obtain ⟨h_eqA, h⟩ := h)
    subst_vars
    simp_all [forall_const, compSt, initState, mem_addAll, mem_addMissing,
      missKinds, missKindsL, missKindsO, missKindsOL, missKindsC, genKinds,
      className, List.mem_append, or_assoc]

/-- General-state missing-set accounting: a successful walk extends
the incoming missing set with exactly the unconverted kinds it
reaches. -/
theorem visit_missing (st : State) (n : Node) (st1 : State) (d : DictAst)
    (h : visit A st n = Except.ok (st1, d)) (k : String) :
    k ∈ st1.missing ↔ k ∈ st.missing ∨ k ∈ missKinds n := by
  rw [visit_lift A st] at h
  simp only [liftE] at h
  rw [map_eq_ok] at h
  obtain ⟨⟨δ, a⟩, ha, h⟩ := h
  simp only [Prod.mk.injEq] at h
  obtain ⟨h1, h2⟩ := h
  subst h1
  simp only [compSt, mem_addAll]
  rw [(miss_trace_all A).1 initState n δ a ha k]

/-- A successful walk keeps the missing set duplicate-free. -/
theorem visit_missing_nodup (st : State) (n : Node) (st1 : State) (d : DictAst)
    (h : visit A st n = Except.ok (st1, d)) (hn : st.missing.Nodup) :
    st1.missing.Nodup := by
  rw [visit_lift A st] at h
  simp only [liftE] at h
  rw [map_eq_ok] at h
  obtain ⟨⟨δ, a⟩, ha, h⟩ := h
  simp only [Prod.mk.injEq] at h
  obtain ⟨h1, h2⟩ := h
  subst h1
  exact nodup_addAll _ _ hn

/-- The produced structural record (or the error) depends only on the
input node, not on the walker state the process is in. -/
theorem visit_payload (s1 s2 : State) (n : Node) :
    (visit A s1 n).map Prod.snd = (visit A s2 n).map Prod.snd := by
  rw [visit_lift A s1, visit_lift A s2]
  cases visit A initState n with
  | error e => rfl
  | ok p => rfl

/-- Replacing entries of one key does not disturb lookups of another. -/
theorem getKey_map_replace (k k' : String) (v : DictAst) (hne : k' ≠ k) :
    ∀ d : Rec, getKey (d.map (fun p => if p.1 = k then (k, v) else p)) k' = getKey d k' := by
  intro d
  induction d with
  | nil => rfl
  | cons p rest ih =>
      obtain ⟨k1, v1⟩ := p
      simp only [List.map_cons]
      by_cases hk : k1 = k
      · subst hk
        rw [if_pos rfl]
        simp only [getKey]
        rw [if_neg (fun h => hne h.symm), if_neg (fun h => hne h.symm)]
        exact ih
      · rw [if_neg hk]
        simp only [getKey]
        by_cases hk' : k1 = k'
        · simp [hk']
        · rw [if_neg hk', if_neg hk']
          exact ih

/-- Replacing the entries of a present key makes its lookup return the
new value. -/
theorem getKey_map_replace_self (k : String) (v : DictAst) :
    ∀ d : Rec, (d.any fun p => decide (p.1 = k)) = true →
      getKey (d.map (fun p => if p.1 = k then (k, v) else p)) k = some v := by
  intro d
  induction d with
  | nil => intro hin; simp at hin
  | cons p rest ih =>
      obtain ⟨k1, v1⟩ := p
      intro hin
      simp only [List.map_cons]
      by_cases hk : k1 = k
      · rw [if_pos hk]
        simp [getKey]
      · rw [if_neg hk]
        simp only [getKey]
        rw [if_neg hk]
        apply ih
        simp only [List.any_cons, Bool.or_eq_true, decide_eq_true_eq] at hin
        rcases hin with h | h
        · exact absurd h hk
        · simpa using h

/-- Appending a fresh entry makes its key found, provided no earlier
entry has that key. -/
theorem getKey_append_single_self (k : String) (v : DictAst) :
    ∀ d : Rec, ¬((d.any fun p => decide (p.1 = k)) = true) →
      getKey (d ++ [(k, v)]) k = some v := by
  intro d
  induction d with
  | nil => intro _; simp [getKey]
  | cons p rest ih =>
      obtain ⟨k1, v1⟩ := p
      intro hout
      simp only [List.any_cons, Bool.or_eq_true, decide_eq_true_eq] at hout
      push_neg at hout
      simp only [List.cons_append, getKey]
      rw [if_neg hout.1]
      exact ih (by simpa using hout.2)

/-- Appending an entry of one key does not disturb lookups of
another. -/
theorem getKey_append_single_ne (k k' : String) (v : DictAst) (hne : k' ≠ k) :
    ∀ d : Rec, getKey (d ++ [(k, v)]) k' = getKey d k' := by
  intro d
  induction d with
  | nil => simp [getKey, Ne.symm hne]
  | cons p rest ih =>
      obtain ⟨k1, v1⟩ := p
      simp only [List.cons_append, getKey]
      by_cases hk' : k1 = k'
      · simp [hk']
      · rw [if_neg hk', if_neg hk']
        exact ih

/-- Lookup after an overwrite of the same key. -/
theorem getKey_setKey_self (k : String) (v : DictAst) (d : Rec) :
    getKey (setKey d k v) k = some v := by
  unfold setKey
  split
  next hin => exact getKey_map_replace_self k v d hin
  next hout => exact getKey_append_single_self k v d hout

/-- Lookup of a different key passes an overwrite untouched. -/
theorem getKey_setKey_ne (k k' : String) (v : DictAst) (hne : k' ≠ k) (d : Rec) :
    getKey (setKey d k v) k' = getKey d k' := by
  unfold setKey
  split
  next hin => exact getKey_map_replace k k' v hne d
  next hout => exact getKey_append_single_ne k k' v hne d

/-- Lookup of a key the right operand does not define falls through to
the left operand. -/
theorem getKey_dictUnion_not_mem (d1 d2 : Rec) (k : String)
    (h : ¬ k ∈ keysOf d2) : getKey (dictUnion d1 d2) k = getKey d1 k := by
  induction d2 generalizing d1 with
  | nil => rfl
  | cons p rest ih =>
      obtain ⟨k2, v2⟩ := p
      simp only [keysOf, List.map_cons, List.mem_cons] at h
      push_neg at h
      show getKey (dictUnion (setKey d1 k2 v2) rest) k = _
      rw [ih _ (by simpa [keysOf] using h.2)]
      exact getKey_setKey_ne k2 k v2 h.1 d1

/-- Right-biased union: a key the right operand defines resolves to
the right operand's value. -/
theorem getKey_dictUnion_mem_right (d1 d2 : Rec) (k : String)
    (hnd : (keysOf d2).Nodup) (hmem : k ∈ keysOf d2) :
    getKey (dictUnion d1 d2) k = getKey d2 k := by
  induction d2 generalizing d1 with
  | nil => simp [keysOf] at hmem
  | cons p rest ih =>
      obtain ⟨k2, v2⟩ := p
      simp only [keysOf, List.map_cons, List.nodup_cons] at hnd
      show getKey (dictUnion (setKey d1 k2 v2) rest) k = _
      by_cases hk : k = k2
      · subst hk
        rw [getKey_dictUnion_not_mem _ _ _ (by simpa [keysOf] using hnd.1)]
        rw [getKey_setKey_self]
        simp [getKey]
      · simp only [keysOf, List.map_cons, List.mem_cons] at hmem
        rcases hmem with h | h
        · exact absurd h hk
        · rw [ih _ hnd.2 (by simpa [keysOf] using h)]
          simp [getKey, Ne.symm hk]

/-- Successful info extraction yields exactly the positional-metadata
record of the node. -/
theorem info_only_ok (n : Node) (r : Rec) (h : info_only n = Except.ok r) :
    ∃ p, posOf n = some p ∧ r = posRec p (typeCommentOf n) := by
  unfold info_only at h
  cases hp : posOf n <;> rw [hp] at h
  · simp [throw, throwThe, MonadExceptOf.throw] at h
  · simp only [pure, Except.pure, Except.ok.injEq] at h
    exact ⟨_, rfl, h.symm⟩

/-- Sequence conversion preserves length. -/
theorem visitList_length (ns : List Node) : ∀ st st1 rs,
    visitList A st ns = Except.ok (st1, rs) → rs.length = ns.length := by
  induction ns with
  | nil =>
      intro st st1 rs h
      simp only [visitList, pure, Except.pure, Except.ok.injEq, Prod.mk.injEq] at h
      simp [← h.2]
  | cons n rest ih =>
      intro st st1 rs h
      simp only [visitList] at h
      rw [bind_ok_iff] at h
      obtain ⟨⟨s1, r⟩, h1, h⟩ := h
      dsimp only at h
      rw [bind_ok_iff] at h
      obtain ⟨⟨s2, rs2⟩, h2, h⟩ := h
      dsimp only at h
      simp only [pure, Except.pure, Except.ok.injEq, Prod.mk.injEq] at h
      obtain ⟨-, h3⟩ := h
      simp [← h3, ih _ _ _ h2]

/-- C1: on a well-formed tree containing a subtraction (`x - y`), the
dispatcher reaches the fallback on the `Sub` operator node, which has
no position attributes, and the conversion raises instead of
returning a record. -/
theorem c1_fallback_crashes :
    visit A initState (.BinOp (.Name "x" .Load pos0) (.other "Sub" none none [])
      (.Name "y" .Load pos0) pos0) = .error "AttributeError: lineno" := by
  simp [visit, generic_visit, visit_children, visitList, visitOpt, visitOptList,
    info_only, posOf, posRec, typeCommentOf, className, nodeDump, optStr,
    dictUnion, setKey, getKey, addMissing, addAll, initState, pure, Except.pure,
    throw, throwThe, MonadExceptOf.throw, generic_visit_true]

/-- Lower-case hex rendering of the null address. -/
theorem hexStr_zero : hexStr 0 = "0" := by decide

/-- Lower-case hex rendering of address one. -/
theorem hexStr_one : hexStr 1 = "1" := by decide

/-- C7 amended: within one run — one address assignment for the node
dumps — the primary JSON output is a function of the input tree alone:
walks started from any two process states produce identical output
text.  Across separate runs the equality holds only up to the address
assignment (see the counterexample). -/
theorem c7_deterministic_output (t : Node) (s1 s2 : State) :
    primaryOutput A s1 t = primaryOutput A s2 t := by
  unfold primaryOutput
  rw [visit_lift A s1, visit_lift A s2]
  cases visit A initState t with
  | error e => rfl
  | ok p => rfl

/-- C7 counterexample: converting the same input tree in two separate
runs does not always yield byte-identical JSON output on the primary
channel.  On any tree that exercises the fallback (here the module of a
single `pass` statement, whose `Pass` kind has no converter) the
placeholder `type` string embeds `str(node)` — the default repr with
the node's run-varying memory address — so two runs whose address
assignments differ on that node print different JSON texts. -/
theorem c7_counterexample :
    ¬ (∀ (A1 A2 : Node → Nat) (t : Node),
        primaryOutput A1 initState t = primaryOutput A2 initState t) := by
  intro hcl
  have hv0 : visit (fun _ => 0) initState
      (.Module [.other "Pass" (some pos0) none []]) = Except.ok
      (⟨["Pass"], ["Unimplemented Node: <ast.Pass object at 0x0>"]⟩,
       .dict [("type", DictAst.str "Module"), ("body", DictAst.list
         [.dict [("lineno", DictAst.int 1), ("col_offset", DictAst.int 0),
           ("end_lineno", DictAst.int 1), ("end_col_offset", DictAst.int 5),
           ("type_comment", DictAst.null),
           ("type", DictAst.str "Unimplemented: <ast.Pass object at 0x0>")]])]) := by
    simp [visit, visitList, generic_visit, visit_children, posOf, posRec,
      typeCommentOf, nodeDump, hexStr_zero, className, addMissing, dictUnion,
      setKey, optStr, pos0, initState, pure, Except.pure, throw, throwThe,
      MonadExceptOf.throw]
  have hv1 : visit (fun _ => 1) initState
      (.Module [.other "Pass" (some pos0) none []]) = Except.ok
      (⟨["Pass"], ["Unimplemented Node: <ast.Pass object at 0x1>"]⟩,
       .dict [("type", DictAst.str "Module"), ("body", DictAst.list
         [.dict [("lineno", DictAst.int 1), ("col_offset", DictAst.int 0),
           ("end_lineno", DictAst.int 1), ("end_col_offset", DictAst.int 5),
           ("type_comment", DictAst.null),
           ("type", DictAst.str "Unimplemented: <ast.Pass object at 0x1>")]])]) := by
    simp [visit, visitList, generic_visit, visit_children, posOf, posRec,
      typeCommentOf, nodeDump, hexStr_one, className, addMissing, dictUnion,
      setKey, optStr, pos0, initState, pure, Except.pure, throw, throwThe,
      MonadExceptOf.throw]
  have h := hcl (fun _ => 0) (fun _ => 1) (.Module [.other "Pass" (some pos0) none []])
  unfold primaryOutput at h
  rw [hv0, hv1] at h
  simp only [map_ok] at h
  injection h with h
  exact absurd h (by decide)

/-- C8: info-only metadata extraction leaves the missing set and the
diagnostics untouched, visits no children, and computes exactly the
five positional-metadata fields. -/
theorem c8_info_only_frame (st : State) (n : Node) :
    generic_visit A st n true = (info_only n).map (fun r => (st, r)) ∧
    (∀ r, info_only n = Except.ok r →
      keysOf r = ["lineno", "col_offset", "end_lineno", "end_col_offset",
        "type_comment"]) := by
  refine ⟨generic_visit_true A st n, ?_⟩
  intro r h
  obtain ⟨p, hp, hr⟩ := info_only_ok n r h
  subst hr
  rfl

/-- C8 witness: the frame property applied to a constant node. -/
theorem c8_info_only_frame_witness :
    generic_visit (fun _ => 0) initState (.Constant (.int 1) none pos0) true =
      (info_only (.Constant (.int 1) none pos0)).map (fun r => (initState, r)) ∧
    keysOf (posRec pos0 none) =
      ["lineno", "col_offset", "end_lineno", "end_col_offset", "type_comment"] :=
  ⟨(c8_info_only_frame (fun _ => 0) initState (.Constant (.int 1) none pos0)).1,
   (c8_info_only_frame (fun _ => 0) initState (.Constant (.int 1) none pos0)).2
     (posRec pos0 none) rfl⟩

/-- C3 counterexample: the claim that the kind-specific (left) fields
win on key collision is false for the code's merge operator: Python's
dict union is right-biased, so the right operand wins. -/
theorem c3_counterexample :
    ¬ (∀ (own meta : Rec) (k : String), k ∈ keysOf own → k ∈ keysOf meta →
        getKey (dictUnion own meta) k = getKey own k) := by
  intro h
  have := h [("type", .str "specific")] [("type", .str "meta")] "type"
    (by simp [keysOf]) (by simp [keysOf])
  simp [dictUnion, setKey, getKey] at this

/-- C3 amended: on key collision the positional-metadata operand (the
right operand of the union) wins; for any key the right operand
defines, the union resolves to the right operand's value. -/
theorem c3_union_right_biased (own meta : Rec) (k : String)
    (hnd : (keysOf meta).Nodup) (hmem : k ∈ keysOf meta) :
    getKey (dictUnion own meta) k = getKey meta k :=
  getKey_dictUnion_mem_right own meta k hnd hmem

/-- C3 witness: the right bias observed on a concrete collision. -/
theorem c3_union_right_biased_witness :
    (keysOf [("type", DictAst.str "meta")]).Nodup ∧
    "type" ∈ keysOf [("type", DictAst.str "meta")] ∧
    getKey (dictUnion [("type", DictAst.str "specific")]
        [("type", DictAst.str "meta")]) "type" =
      getKey [("type", DictAst.str "meta")] "type" :=
  ⟨by simp [keysOf], by simp [keysOf],
   c3_union_right_biased [("type", .str "specific")] [("type", .str "meta")]
     "type" (by simp [keysOf]) (by simp [keysOf])⟩

/-- The record the fallback builds: the positional metadata with the
placeholder `type` unioned in. -/
theorem generic_false_shape (st : State) (n : Node) (st1 : State) (r : Rec)
    (h : generic_visit A st n false = Except.ok (st1, r)) :
    ∃ p, posOf n = some p ∧
      r = dictUnion (posRec p (typeCommentOf n))
        [("type", DictAst.str ("Unimplemented: " ++ nodeDump (A n) n))] := by
  simp only [generic_visit, Bool.false_eq_true, if_false] at h
  rw [visit_children_bind_ok] at h
  obtain ⟨δc, hc, h⟩ := h
  rw [bind_ok_iff] at h
  obtain ⟨y, hy, h⟩ := h
  simp only [pure, Except.pure, Except.ok.injEq] at hy
  subst hy
  dsimp only at h
  cases hp : posOf n <;> rw [hp] at h
  · simp [throw, throwThe, MonadExceptOf.throw] at h
  · simp only [pure, Except.pure, Except.ok.injEq, Prod.mk.injEq] at h
    exact ⟨_, rfl, h.2.symm⟩

/-- Successful info extraction, as a decomposition rule. -/
theorem info_only_ok_iff (n : Node) (r : Rec) :
    info_only n = Except.ok r ↔
      ∃ p, posOf n = some p ∧ r = posRec p (typeCommentOf n) := by
  constructor
  · exact info_only_ok n r
  · rintro ⟨p, hp, rfl⟩
    simp [info_only, hp, pure, Except.pure]

/-- Sequencing after an info-only extraction, decomposed into the
extracted positional record. -/
theorem info_bind_ok {β : Type} (st : State) (n : Node)
    (f : State × Rec → Except String β) (c : β) :
    ((info_only n).map (fun r => (st, r)) >>= f = Except.ok c) ↔
      ∃ p, posOf n = some p ∧
        f (st, posRec p (typeCommentOf n)) = Except.ok c := by
  unfold info_only
  cases posOf n <;>
    simp [throw, throwThe, MonadExceptOf.throw, pure, Except.pure, Except.map]

/-- Lookups on a record with the positional metadata unioned in: the
five positional keys are present, and any other key falls through to
the converter's own fields. -/
theorem union_posRec_facts (A : Rec) (p : Pos) (tc : Option String) :
    getKey (dictUnion A (posRec p tc)) "type" = getKey A "type" ∧
    (getKey (dictUnion A (posRec p tc)) "lineno").isSome ∧
    (getKey (dictUnion A (posRec p tc)) "col_offset").isSome ∧
    (getKey (dictUnion A (posRec p tc)) "end_lineno").isSome ∧
    (getKey (dictUnion A (posRec p tc)) "end_col_offset").isSome ∧
    (getKey (dictUnion A (posRec p tc)) "type_comment").isSome := by
  refine ⟨?_, ?_, ?_, ?_, ?_, ?_⟩
  · exact getKey_dictUnion_not_mem _ _ _ (by simp [posRec, keysOf])
  all_goals
    rw [getKey_dictUnion_mem_right _ _ _ (by simp [posRec, keysOf])
      (by simp [posRec, keysOf])]
    simp [posRec, getKey]

/-- Lookup of a key neither in the positional metadata falls through
to the converter fields. -/
theorem getKey_union_posRec_ne (A : Rec) (p : Pos) (tc : Option String) (k : String)
    (hk : ¬ k ∈ ["lineno", "col_offset", "end_lineno", "end_col_offset",
      "type_comment"]) :
    getKey (dictUnion A (posRec p tc)) k = getKey A k := by
  apply getKey_dictUnion_not_mem
  simpa [posRec, keysOf] using hk

/-- Shape of every record the dispatcher returns: a dict whose `type`
field carries the specific converter's tag when one ran, and which
contains the positional-metadata fields whenever the converter merges
the info record. -/
theorem visit_shape (st : State) (n : Node) (st1 : State) (d : DictAst)
    (h : visit A st n = Except.ok (st1, d)) :
    ∃ r, d = DictAst.dict r ∧
      (∀ t, specificTag n = some t → getKey r "type" = some (.str t)) ∧
      (mergesInfo n = true →
        (getKey r "lineno").isSome ∧ (getKey r "col_offset").isSome ∧
        (getKey r "end_lineno").isSome ∧ (getKey r "end_col_offset").isSome ∧
        (getKey r "type_comment").isSome ∧ (getKey r "type").isSome) := by
  cases n
  case other kind pos tc ch =>
    simp only [visit] at h
    rw [bind_ok_iff] at h
    obtain ⟨⟨s1, r⟩, hg, h⟩ := h
    dsimp only at h
    simp only [pure, Except.pure, Except.ok.injEq, Prod.mk.injEq] at h
    obtain ⟨h1, h2⟩ := h
    subst h2
    obtain ⟨p, hp, rfl⟩ := generic_false_shape A st _ s1 r hg
    refine ⟨_, rfl, fun t ht => ?_, fun hm => ?_⟩
    · simp [specificTag] at ht
    · simp [dictUnion, posRec, setKey, getKey]
  all_goals
    simp only [visit] at h
    try simp only [visit_bind_ok, visitList_bind_ok, visitOpt_bind_ok,
      visitOptList_bind_ok, generic_bind_ok, generic_visit_true, info_bind_ok,
      pure, Except.pure, Except.ok.injEq, Prod.mk.injEq] at h
    repeat
      first
      | (obtain ⟨_, _, _, h⟩ := h)
      | (obtain ⟨_, _, h⟩ := h)
      | (obtain ⟨h_eqA, h⟩ := h)
    subst_vars
    refine ⟨_, rfl, fun t ht => ?_, fun hm => ?_⟩
    · simp only [specificTag, className, Option.some.injEq] at ht
      subst ht
      first
      | (rw [(union_posRec_facts _ _ _).1]
         simp [getKey]
         done)
      | simp [getKey]
    · first
      | (refine ⟨(union_posRec_facts _ _ _).2.1, (union_posRec_facts _ _ _).2.2.1,
          (union_posRec_facts _ _ _).2.2.2.1, (union_posRec_facts _ _ _).2.2.2.2.1,
          (union_posRec_facts _ _ _).2.2.2.2.2, ?_⟩
         rw [(union_posRec_facts _ _ _).1]
         simp [getKey]
         done)
      | simp [mergesInfo] at hm

/-- C2 counterexample: not every produced record carries the
positional-metadata fields; the root `Module` record (like `Load`,
`Store`, operator and `keyword` records) has no `lineno` at all. -/
theorem c2_counterexample :
    ¬ (∀ (A : Node → Nat) (st : State) (n : Node) (st1 : State) (d : DictAst),
        visit A st n = Except.ok (st1, d) → ∃ r, d = DictAst.dict r ∧
          (getKey r "type").isSome ∧ (getKey r "lineno").isSome ∧
          (getKey r "col_offset").isSome ∧ (getKey r "end_lineno").isSome ∧
          (getKey r "end_col_offset").isSome ∧ (getKey r "type_comment").isSome) := by
  intro hcl
  have h : visit (fun _ => 0) initState (.Module []) =
      Except.ok (initState, .dict [("type", .str "Module"), ("body", .list [])]) := by
    simp [visit, visitList, pure, Except.pure]
  obtain ⟨r, hr, _, hlin, _⟩ := hcl _ _ _ _ _ h
  injection hr with hr
  subst hr
  simp [getKey] at hlin

/-- C2 amended: every record produced by a converter that merges the
positional metadata (every kind-specific converter except `Module`,
`Load`, `Store`, `BitOr`, `Not`, `IsNot`, `Eq`, `Add`, `keyword`,
`arguments`, `comprehension`, `withitem`, plus the fallback) carries
`type` and the five positional-metadata fields. -/
theorem c2_amended (st : State) (n : Node) (st1 : State) (d : DictAst)
    (h : visit A st n = Except.ok (st1, d)) (hm : mergesInfo n = true) :
    ∃ r, d = DictAst.dict r ∧
      (getKey r "type").isSome ∧ (getKey r "lineno").isSome ∧
      (getKey r "col_offset").isSome ∧ (getKey r "end_lineno").isSome ∧
      (getKey r "end_col_offset").isSome ∧ (getKey r "type_comment").isSome := by
  obtain ⟨r, rfl, _, hf⟩ := visit_shape A st n st1 d h
  obtain ⟨f1, f2, f3, f4, f5, f6⟩ := hf hm
  exact ⟨r, rfl, f6, f1, f2, f3, f4, f5⟩

/-- C2 witness: the merged record of a constant node. -/
theorem c2_amended_witness :
    visit (fun _ => 0) initState (.Constant (.int 1) none pos0) = Except.ok (initState,
      .dict [("type", DictAst.str "Constant"), ("value", DictAst.int 1),
        ("kind", DictAst.null), ("lineno", DictAst.int 1),
        ("col_offset", DictAst.int 0), ("end_lineno", DictAst.int 1),
        ("end_col_offset", DictAst.int 5), ("type_comment", DictAst.null)]) ∧
    mergesInfo (.Constant (.int 1) none pos0) = true ∧
    (∃ r, (DictAst.dict [("type", DictAst.str "Constant"), ("value", DictAst.int 1),
        ("kind", DictAst.null), ("lineno", DictAst.int 1),
        ("col_offset", DictAst.int 0), ("end_lineno", DictAst.int 1),
        ("end_col_offset", DictAst.int 5), ("type_comment", DictAst.null)])
          = DictAst.dict r ∧
      (getKey r "type").isSome ∧ (getKey r "lineno").isSome ∧
      (getKey r "col_offset").isSome ∧ (getKey r "end_lineno").isSome ∧
      (getKey r "end_col_offset").isSome ∧ (getKey r "type_comment").isSome) := by
  refine ⟨?_, rfl, ?_⟩
  · simp [visit, generic_visit_true, info_only, posOf, posRec, typeCommentOf,
      optStr, constToDict, dictUnion, setKey, pos0, pure, Except.pure,
      Except.map]
  · exact c2_amended (fun _ => 0) initState (.Constant (.int 1) none pos0) initState _
      (by simp [visit, generic_visit_true, info_only, posOf, posRec,
        typeCommentOf, optStr, constToDict, dictUnion, setKey, pos0, pure,
        Except.pure, Except.map]) rfl

/-- C4: the `type` field of every kind-specific converter's record is
that kind's tag, never the fallback placeholder. -/
theorem c4_type_tag (st : State) (n : Node) (st1 : State) (d : DictAst)
    (t : String) (h1 : specificTag n = some t)
    (h2 : visit A st n = Except.ok (st1, d)) :
    ∃ r, d = DictAst.dict r ∧ getKey r "type" = some (.str t) := by
  obtain ⟨r, rfl, hA, _⟩ := visit_shape A st n st1 d h2
  exact ⟨r, rfl, hA t h1⟩

/-- C4 witness: the tag of a `Load` context record. -/
theorem c4_type_tag_witness :
    visit (fun _ => 0) initState .Load =
      Except.ok (initState, .dict [("type", DictAst.str "Load")]) ∧
    (∃ r, DictAst.dict [("type", DictAst.str "Load")] = DictAst.dict r ∧
      getKey r "type" = some (.str "Load")) :=
  ⟨by simp [visit, pure, Except.pure],
   c4_type_tag (fun _ => 0) initState .Load initState _ "Load" rfl
     (by simp [visit, pure, Except.pure])⟩

/-- C9: a comparison's record stores exactly the converted operator
sequence and the converted comparator sequence, in input order, with
no `left` field and no constraint tying the two lengths together. -/
theorem c9_compare (st : State) (l : Node) (ops comps : List Node) (pos : Pos)
    (st1 : State) (d : DictAst)
    (h : visit A st (.Compare l ops comps pos) = Except.ok (st1, d)) :
    ∃ r opsR compsR s1 s2, d = DictAst.dict r ∧
      visitList A st ops = Except.ok (s1, opsR) ∧
      visitList A s1 comps = Except.ok (s2, compsR) ∧
      getKey r "ops" = some (.list opsR) ∧
      getKey r "comparators" = some (.list compsR) ∧
      getKey r "left" = none ∧
      opsR.length = ops.length ∧ compsR.length = comps.length := by
  simp only [visit] at h
  rw [bind_ok_iff] at h
  obtain ⟨⟨s1, opsR⟩, h1, h⟩ := h
  dsimp only at h
  rw [bind_ok_iff] at h
  obtain ⟨⟨s2, compsR⟩, h2, h⟩ := h
  dsimp only at h
  rw [generic_visit_true, info_bind_ok] at h
  obtain ⟨p, hp, h⟩ := h
  dsimp only at h
  simp only [pure, Except.pure, Except.ok.injEq, Prod.mk.injEq] at h
  obtain ⟨h3, h4⟩ := h
  subst h4
  refine ⟨_, opsR, compsR, s1, s2, rfl, h1, h2, ?_, ?_, ?_,
    visitList_length _ _ _ _ _ h1, visitList_length _ _ _ _ _ h2⟩
  · rw [getKey_union_posRec_ne _ _ _ _ (by simp)]
    simp [getKey]
  · rw [getKey_union_posRec_ne _ _ _ _ (by simp)]
    simp [getKey]
  · rw [getKey_union_posRec_ne _ _ _ _ (by simp)]
    simp [getKey]

/-- C9 witness: a comparison with one operator, no comparators (no
length constraint), and a position-less unknown node as left operand,
which the converter never touches. -/
theorem c9_compare_witness :
    visit (fun _ => 0) initState (.Compare (.other "Junk" none none []) [.Eq] [] pos0) =
      Except.ok (initState,
        .dict [("type", DictAst.str "Compare"),
          ("ops", DictAst.list [DictAst.dict [("type", DictAst.str "Eq")]]),
          ("comparators", DictAst.list []), ("lineno", DictAst.int 1),
          ("col_offset", DictAst.int 0), ("end_lineno", DictAst.int 1),
          ("end_col_offset", DictAst.int 5), ("type_comment", DictAst.null)]) ∧
    (∃ r opsR compsR s1 s2, (DictAst.dict [("type", DictAst.str "Compare"),
          ("ops", DictAst.list [DictAst.dict [("type", DictAst.str "Eq")]]),
          ("comparators", DictAst.list []), ("lineno", DictAst.int 1),
          ("col_offset", DictAst.int 0), ("end_lineno", DictAst.int 1),
          ("end_col_offset", DictAst.int 5), ("type_comment", DictAst.null)])
            = DictAst.dict r ∧
      visitList (fun _ => 0) initState [Node.Eq] = Except.ok (s1, opsR) ∧
      visitList (fun _ => 0) s1 [] = Except.ok (s2, compsR) ∧
      getKey r "ops" = some (.list opsR) ∧
      getKey r "comparators" = some (.list compsR) ∧
      getKey r "left" = none ∧
      opsR.length = [Node.Eq].length ∧ compsR.length = ([] : List Node).length) := by
  constructor
  · simp [visit, visitList, generic_visit_true, info_only, posOf, posRec,
      typeCommentOf, optStr, dictUnion, setKey, pos0, pure, Except.pure,
      Except.map]
  · exact c9_compare (fun _ => 0) initState (.other "Junk" none none []) [.Eq] [] pos0
      initState _
      (by simp [visit, visitList, generic_visit_true, info_only, posOf, posRec,
        typeCommentOf, optStr, dictUnion, setKey, pos0, pure, Except.pure,
        Except.map])

/-- C10: a function definition's record stores the converted return
annotation under the key `return`, has no `returns` key, and stores
null when the annotation is absent. -/
theorem c10_functiondef_return (st : State) (name : String) (args : Node)
    (body decoratorList : List Node) (returns : Option Node) (pos : Pos)
    (tc : Option String) (st1 : State) (d : DictAst)
    (h : visit A st (.FunctionDef name args body decoratorList returns pos tc) =
      Except.ok (st1, d)) :
    ∃ r, d = DictAst.dict r ∧ getKey r "returns" = none ∧
      ∃ v, getKey r "return" = some v ∧ (returns = none → v = DictAst.null) := by
  simp only [visit] at h
  rw [bind_ok_iff] at h
  obtain ⟨⟨s1, argsR⟩, h1, h⟩ := h
  dsimp only at h
  rw [bind_ok_iff] at h
  obtain ⟨⟨s2, bodyR⟩, h2, h⟩ := h
  dsimp only at h
  rw [bind_ok_iff] at h
  obtain ⟨⟨s3, decR⟩, h3, h⟩ := h
  dsimp only at h
  rw [bind_ok_iff] at h
  obtain ⟨⟨s4, retR⟩, h4, h⟩ := h
  dsimp only at h
  rw [generic_visit_true, info_bind_ok] at h
  obtain ⟨p, hp, h⟩ := h
  dsimp only at h
  simp only [pure, Except.pure, Except.ok.injEq, Prod.mk.injEq] at h
  obtain ⟨h5, h6⟩ := h
  subst h6
  refine ⟨_, rfl, ?_, retR, ?_, ?_⟩
  · rw [getKey_union_posRec_ne _ _ _ _ (by simp)]
    simp [getKey]
  · rw [getKey_union_posRec_ne _ _ _ _ (by simp)]
    simp [getKey]
  · intro hret
    subst hret
    simp only [visitOpt, pure, Except.pure, Except.ok.injEq, Prod.mk.injEq] at h4
    exact h4.2.symm

/-- C10 witness: a function definition without a return annotation. -/
theorem c10_functiondef_return_witness :
    visit (fun _ => 0) initState (.FunctionDef "f" (.arguments [] [] none [] [] none [])
        [] [] none pos0 none) = Except.ok (initState,
      .dict [("type", DictAst.str "FunctionDef"), ("name", DictAst.str "f"),
        ("args", DictAst.dict [("type", DictAst.str "arguments"),
          ("posonlyargs", DictAst.list []), ("args", DictAst.list []),
          ("vararg", DictAst.null), ("kwonlyargs", DictAst.list []),
          ("kw_defaults", DictAst.list []), ("kwarg", DictAst.null),
          ("defaults", DictAst.list [])]),
        ("body", DictAst.list []), ("decorator_list", DictAst.list []),
        ("return", DictAst.null), ("lineno", DictAst.int 1),
        ("col_offset", DictAst.int 0), ("end_lineno", DictAst.int 1),
        ("end_col_offset", DictAst.int 5), ("type_comment", DictAst.null)]) ∧
    (∃ r, (DictAst.dict [("type", DictAst.str "FunctionDef"), ("name", DictAst.str "f"),
        ("args", DictAst.dict [("type", DictAst.str "arguments"),
          ("posonlyargs", DictAst.list []), ("args", DictAst.list []),
          ("vararg", DictAst.null), ("kwonlyargs", DictAst.list []),
          ("kw_defaults", DictAst.list []), ("kwarg", DictAst.null),
          ("defaults", DictAst.list [])]),
        ("body", DictAst.list []), ("decorator_list", DictAst.list []),
        ("return", DictAst.null), ("lineno", DictAst.int 1),
        ("col_offset", DictAst.int 0), ("end_lineno", DictAst.int 1),
        ("end_col_offset", DictAst.int 5), ("type_comment", DictAst.null)])
          = DictAst.dict r ∧
      getKey r "returns" = none ∧
      ∃ v, getKey r "return" = some v ∧
        ((none : Option Node) = none → v = DictAst.null)) := by
  constructor
  · simp [visit, visitList, visitOpt, visitOptList, generic_visit_true,
      info_only, posOf, posRec, typeCommentOf, optStr, dictUnion, setKey, pos0,
      pure, Except.pure, Except.map]
  · exact c10_functiondef_return (fun _ => 0) initState "f"
      (.arguments [] [] none [] [] none []) [] [] none pos0 none initState _
      (by simp [visit, visitList, visitOpt, visitOptList, generic_visit_true,
        info_only, posOf, posRec, typeCommentOf, optStr, dictUnion, setKey,
        pos0, pure, Except.pure, Except.map])

/-- C5 counterexample: the fallback does not return a record for every
node kind without a specific converter — on a kind without position
attributes (here an operator such as `Sub`) it raises instead. -/
theorem c5_counterexample :
    ¬ (∀ (A : Node → Nat) (st : State) (kind : String) (pos : Option Pos)
        (tc : Option (Option String)) (ch : List Node),
        ¬ kind ∈ implementedTags →
        ∃ st1 r, visit A st (.other kind pos tc ch) =
          Except.ok (st1, DictAst.dict r)) := by
  intro hcl
  obtain ⟨st1, r, hvis⟩ := hcl (fun _ => 0) initState "Sub" none none []
    (by simp [implementedTags])
  rw [show visit (fun _ => 0) initState (.other "Sub" none none []) =
      .error "AttributeError: lineno" from by
    simp [visit, generic_visit, visit_children, visitList, posOf, typeCommentOf,
      nodeDump, className, addMissing, pure, Except.pure, throw, throwThe,
      MonadExceptOf.throw]] at hvis
  exact absurd hvis (by simp)

/-- C5 amended: for an unconverted node that carries the position
attributes, the fallback records the kind tag in the missing set,
returns a record holding exactly the five positional-metadata fields
plus the placeholder `type`, and the tag shows up exactly once in the
end-of-run report. -/
theorem c5_amended (st : State) (kind : String) (p : Pos)
    (tc : Option (Option String)) (ch : List Node) (st1 : State) (d : DictAst)
    (hk : ¬ kind ∈ implementedTags)
    (h : visit A st (.other kind (some p) tc ch) = Except.ok (st1, d)) :
    ∃ r, d = DictAst.dict r ∧
      keysOf r = ["lineno", "col_offset", "end_lineno", "end_col_offset",
        "type_comment", "type"] ∧
      getKey r "type" = some (.str ("Unimplemented: " ++
        nodeDump (A (.other kind (some p) tc ch)) (.other kind (some p) tc ch))) ∧
      kind ∈ st1.missing ∧
      (st.missing.Nodup → st1.missing.count kind = 1) := by
  have hmem : kind ∈ st1.missing := by
    rw [visit_missing A st _ st1 d h kind]
    right
    simp [missKinds]
  have hcount : st.missing.Nodup → st1.missing.count kind = 1 := fun hnd =>
    List.count_eq_one_of_mem (visit_missing_nodup A st _ st1 _ h hnd) hmem
  have h' := h
  simp only [visit] at h'
  rw [bind_ok_iff] at h'
  obtain ⟨⟨s1, r⟩, hg, h2⟩ := h'
  dsimp only at h2
  simp only [pure, Except.pure, Except.ok.injEq, Prod.mk.injEq] at h2
  obtain ⟨h3, h4⟩ := h2
  subst h4
  obtain ⟨p', hp', hr⟩ := generic_false_shape A st _ s1 r hg
  simp only [posOf, Option.some.injEq] at hp'
  subst hp'
  subst hr
  refine ⟨_, rfl, ?_, ?_, hmem, hcount⟩
  · simp [dictUnion, setKey, posRec, keysOf]
  · simp [dictUnion, setKey, posRec, getKey]

/-- C6 counterexample: the missing-kind set is not exactly the
unconverted kinds the tree contains — an unconverted kind sitting in a
comparison's left operand is never reached, because `visit_Compare`
ignores `node.left`. -/
theorem c6_counterexample :
    ¬ (∀ (A : Node → Nat) (t : Node) (st1 : State) (d : DictAst),
        visit A initState t = Except.ok (st1, d) →
        st1.missing.Nodup ∧ ∀ k, (k ∈ st1.missing ↔ k ∈ treeKinds t)) := by
  intro hcl
  have h : visit (fun _ => 0) initState
      (.Compare (.other "Match" (some pos0) none []) [] [] pos0) =
      Except.ok (initState, .dict [("type", DictAst.str "Compare"),
        ("ops", DictAst.list []), ("comparators", DictAst.list []),
        ("lineno", DictAst.int 1), ("col_offset", DictAst.int 0),
        ("end_lineno", DictAst.int 1), ("end_col_offset", DictAst.int 5),
        ("type_comment", DictAst.null)]) := by
    simp [visit, visitList, generic_visit_true, info_only, posOf, posRec,
      typeCommentOf, optStr, dictUnion, setKey, pos0, pure, Except.pure,
      Except.map]
  have hm := (hcl _ _ _ _ h).2 "Match"
  simp [treeKinds, treeKindsL, initState] at hm

/-- C6 amended: after a successful walk from a fresh state, the
missing set is duplicate-free and contains exactly the unconverted
kinds the traversal reaches (kinds occurring only inside a
comparison's left operand are not reached). -/
theorem c6_missing_accounting (t : Node) (st1 : State) (d : DictAst)
    (h : visit A initState t = Except.ok (st1, d)) :
    st1.missing.Nodup ∧ ∀ k, (k ∈ st1.missing ↔ k ∈ missKinds t) := by
  constructor
  · exact visit_missing_nodup A initState t st1 d h (by simp [initState])
  · exact (miss_trace_all A).1 initState t st1 d h

/-- C6 witness: a module with two distinct unconverted kinds, one of
them occurring twice, accumulates each kind exactly once. -/
theorem c6_missing_accounting_witness :
    visit (fun _ => 0) initState (.Module [.other "MatchA" (some pos0) none [],
      .other "MatchB" (some pos0) none [], .other "MatchA" (some pos0) none []]) =
      Except.ok (⟨["MatchA", "MatchB"],
        ["Unimplemented Node: <ast.MatchA object at 0x0>",
         "Unimplemented Node: <ast.MatchB object at 0x0>",
         "Unimplemented Node: <ast.MatchA object at 0x0>"]⟩,
      .dict [("type", DictAst.str "Module"), ("body", DictAst.list
        [.dict [("lineno", DictAst.int 1), ("col_offset", DictAst.int 0),
          ("end_lineno", DictAst.int 1), ("end_col_offset", DictAst.int 5),
          ("type_comment", DictAst.null),
          ("type", DictAst.str "Unimplemented: <ast.MatchA object at 0x0>")],
         .dict [("lineno", DictAst.int 1), ("col_offset", DictAst.int 0),
          ("end_lineno", DictAst.int 1), ("end_col_offset", DictAst.int 5),
          ("type_comment", DictAst.null),
          ("type", DictAst.str "Unimplemented: <ast.MatchB object at 0x0>")],
         .dict [("lineno", DictAst.int 1), ("col_offset", DictAst.int 0),
          ("end_lineno", DictAst.int 1), ("end_col_offset", DictAst.int 5),
          ("type_comment", DictAst.null),
          ("type", DictAst.str "Unimplemented: <ast.MatchA object at 0x0>")]])]) ∧
    (["MatchA", "MatchB"] : List String).Nodup ∧
    ("MatchA" ∈ (["MatchA", "MatchB"] : List String) ↔
      "MatchA" ∈ missKinds (.Module [.other "MatchA" (some pos0) none [],
        .other "MatchB" (some pos0) none [], .other "MatchA" (some pos0) none []])) := by
  have h : visit (fun _ => 0) initState (.Module [.other "MatchA" (some pos0) none [],
      .other "MatchB" (some pos0) none [], .other "MatchA" (some pos0) none []]) =
      Except.ok (⟨["MatchA", "MatchB"],
        ["Unimplemented Node: <ast.MatchA object at 0x0>",
         "Unimplemented Node: <ast.MatchB object at 0x0>",
         "Unimplemented Node: <ast.MatchA object at 0x0>"]⟩,
      .dict [("type", DictAst.str "Module"), ("body", DictAst.list
        [.dict [("lineno", DictAst.int 1), ("col_offset", DictAst.int 0),
          ("end_lineno", DictAst.int 1), ("end_col_offset", DictAst.int 5),
          ("type_comment", DictAst.null),
          ("type", DictAst.str "Unimplemented: <ast.MatchA object at 0x0>")],
         .dict [("lineno", DictAst.int 1), ("col_offset", DictAst.int 0),
          ("end_lineno", DictAst.int 1), ("end_col_offset", DictAst.int 5),
          ("type_comment", DictAst.null),
          ("type", DictAst.str "Unimplemented: <ast.MatchB object at 0x0>")],
         .dict [("lineno", DictAst.int 1), ("col_offset", DictAst.int 0),
          ("end_lineno", DictAst.int 1), ("end_col_offset", DictAst.int 5),
          ("type_comment", DictAst.null),
          ("type", DictAst.str "Unimplemented: <ast.MatchA object at 0x0>")]])]) := by
    simp [visit, visitList, generic_visit, visit_children, posOf, posRec,
      typeCommentOf, nodeDump, hexStr_zero, className, addMissing, dictUnion, setKey,
      optStr, pos0, initState, pure, Except.pure, throw, throwThe,
      MonadExceptOf.throw]
  refine ⟨h, ?_, ?_⟩
  · exact (c6_missing_accounting _ _ _ _ h).1
  · exact (c6_missing_accounting _ _ _ _ h).2 "MatchA"

/-- C5 witness: the fallback record and bookkeeping for one unknown
kind carrying position attributes. -/
theorem c5_amended_witness :
    ¬ "Match" ∈ implementedTags ∧
    visit (fun _ => 0) initState (.other "Match" (some pos0) none []) = Except.ok
      (⟨["Match"], ["Unimplemented Node: <ast.Match object at 0x0>"]⟩,
        .dict [("lineno", DictAst.int 1), ("col_offset", DictAst.int 0),
          ("end_lineno", DictAst.int 1), ("end_col_offset", DictAst.int 5),
          ("type_comment", DictAst.null),
          ("type", DictAst.str "Unimplemented: <ast.Match object at 0x0>")]) ∧
    (∃ r, (DictAst.dict [("lineno", DictAst.int 1), ("col_offset", DictAst.int 0),
          ("end_lineno", DictAst.int 1), ("end_col_offset", DictAst.int 5),
          ("type_comment", DictAst.null),
          ("type", DictAst.str "Unimplemented: <ast.Match object at 0x0>")]) = DictAst.dict r ∧
      keysOf r = ["lineno", "col_offset", "end_lineno", "end_col_offset",
        "type_comment", "type"] ∧
      getKey r "type" = some (.str ("Unimplemented: " ++
        nodeDump 0 (.other "Match" (some pos0) none []))) ∧
      "Match" ∈ (["Match"] : List String) ∧
      (([] : List String).Nodup → (["Match"] : List String).count "Match" = 1)) := by
  refine ⟨by simp [implementedTags], ?_, ?_⟩
  · simp [visit, generic_visit, visit_children, visitList, posOf, posRec,
      typeCommentOf, nodeDump, hexStr_zero, className, addMissing, dictUnion, setKey,
      optStr, pos0, initState, pure, Except.pure, throw, throwThe,
      MonadExceptOf.throw]
  · exact c5_amended (fun _ => 0) initState "Match" pos0 none []
      ⟨["Match"], ["Unimplemented Node: <ast.Match object at 0x0>"]⟩
      (.dict [("lineno", DictAst.int 1), ("col_offset", DictAst.int 0),
        ("end_lineno", DictAst.int 1), ("end_col_offset", DictAst.int 5),
        ("type_comment", DictAst.null),
        ("type", DictAst.str "Unimplemented: <ast.Match object at 0x0>")])
      (by simp [implementedTags])
      (by simp [visit, generic_visit, visit_children, visitList, posOf, posRec,
        typeCommentOf, nodeDump, hexStr_zero, className, addMissing, dictUnion, setKey,
        optStr, pos0, initState, pure, Except.pure, throw, throwThe,
        MonadExceptOf.throw])
